import Mathlib

namespace WasiRand

/-- Truncation to a 64-bit machine word. -/
def w64 (x : Nat) : Nat := x % 2 ^ 64

/-- Rotate a 64-bit word right by n bits (FIPS 180-4, ROTR). -/
def rotr (x n : Nat) : Nat := w64 ((x >>> n) ||| (x <<< (64 - n)))

/-- Initial hash value of SHA-512 (FIPS 180-4, 5.3.5). -/
def sha512Init : List Nat := [
   0x6a09e667f3bcc908, 0xbb67ae8584caa73b, 0x3c6ef372fe94f82b, 0xa54ff53a5f1d36f1,
   0x510e527fade682d1, 0x9b05688c2b3e6c1f, 0x1f83d9abfb41bd6b, 0x5be0cd19137e2179]

/-- Round constants of SHA-512 (FIPS 180-4, 4.2.3). -/
def sha512K : List Nat := [
   0x428a2f98d728ae22, 0x7137449123ef65cd, 0xb5c0fbcfec4d3b2f, 0xe9b5dba58189dbbc,
   0x3956c25bf348b538, 0x59f111f1b605d019, 0x923f82a4af194f9b, 0xab1c5ed5da6d8118,
   0xd807aa98a3030242, 0x12835b0145706fbe, 0x243185be4ee4b28c, 0x550c7dc3d5ffb4e2,
   0x72be5d74f27b896f, 0x80deb1fe3b1696b1, 0x9bdc06a725c71235, 0xc19bf174cf692694,
   0xe49b69c19ef14ad2, 0xefbe4786384f25e3, 0x0fc19dc68b8cd5b5, 0x240ca1cc77ac9c65,
   0x2de92c6f592b0275, 0x4a7484aa6ea6e483, 0x5cb0a9dcbd41fbd4, 0x76f988da831153b5,
   0x983e5152ee66dfab, 0xa831c66d2db43210, 0xb00327c898fb213f, 0xbf597fc7beef0ee4,
   0xc6e00bf33da88fc2, 0xd5a79147930aa725, 0x06ca6351e003826f, 0x142929670a0e6e70,
   0x27b70a8546d22ffc, 0x2e1b21385c26c926, 0x4d2c6dfc5ac42aed, 0x53380d139d95b3df,
   0x650a73548baf63de, 0x766a0abb3c77b2a8, 0x81c2c92e47edaee6, 0x92722c851482353b,
   0xa2bfe8a14cf10364, 0xa81a664bbc423001, 0xc24b8b70d0f89791, 0xc76c51a30654be30,
   0xd192e819d6ef5218, 0xd69906245565a910, 0xf40e35855771202a, 0x106aa07032bbd1b8,
   0x19a4c116b8d2d0c8, 0x1e376c085141ab53, 0x2748774cdf8eeb99, 0x34b0bcb5e19b48a8,
   0x391c0cb3c5c95a63, 0x4ed8aa4ae3418acb, 0x5b9cca4f7763e373, 0x682e6ff3d6b2b8a3,
   0x748f82ee5defb2fc, 0x78a5636f43172f60, 0x84c87814a1f0ab72, 0x8cc702081a6439ec,
   0x90befffa23631e28, 0xa4506cebde82bde9, 0xbef9a3f7b2c67915, 0xc67178f2e372532b,
   0xca273eceea26619c, 0xd186b8c721c0c207, 0xeada7dd6cde0eb1e, 0xf57d4f7fee6ed178,
   0x06f067aa72176fba, 0x0a637dc5a2c898a6, 0x113f9804bef90dae, 0x1b710b35131c471b,
   0x28db77f523047d84, 0x32caab7b40c72493, 0x3c9ebe0a15c9bebc, 0x431d67c49c100d4c,
   0x4cc5d4becb3e42b6, 0x597f299cfc657e2a, 0x5fcb6fab3ad6faec, 0x6c44198c4a475817]

/-- Big-endian value of a byte list. -/
def beNat : List Nat → Nat → Nat
  | [], acc => acc
  | b :: bs, acc => beNat bs (acc * 256 + b % 256)

/-- Big-endian bytes of a value, n of them. -/
def beBytes : Nat → Nat → List Nat
  | 0, _ => []
  | n + 1, x => (x / 256 ^ n) % 256 :: beBytes n x

/-- Split a padded message into 64-bit big-endian words, count of them given. -/
def toWords : Nat → List Nat → List Nat
  | 0, _ => []
  | n + 1, bs => beNat (bs.take 8) 0 :: toWords n (bs.drop 8)

/-- Message schedule, kept most-recent-first; extends the window by n words. -/
def schedule : Nat → List Nat → List Nat
  | 0, ws => ws
  | n + 1, ws =>
    let w2 := ws.getD 1 0
    let w7 := ws.getD 6 0
    let w15 := ws.getD 14 0
    let w16 := ws.getD 15 0
    let s0 := rotr w15 1 ^^^ rotr w15 8 ^^^ (w15 >>> 7)
    let s1 := rotr w2 19 ^^^ rotr w2 61 ^^^ (w2 >>> 6)
    schedule n (w64 (s1 + w7 + s0 + w16) :: ws)

/-- Eight working variables of the compression function. -/
structure Work where
  a : Nat
  b : Nat
  c : Nat
  d : Nat
  e : Nat
  f : Nat
  g : Nat
  h : Nat

/-- One round of the SHA-512 compression function. -/
def round (s : Work) (k w : Nat) : Work :=
  let S1 := rotr s.e 14 ^^^ rotr s.e 18 ^^^ rotr s.e 41
  let ch := (s.e &&& s.f) ^^^ ((s.e ^^^ (2 ^ 64 - 1)) &&& s.g)
  let t1 := w64 (s.h + S1 + ch + k + w)
  let S0 := rotr s.a 28 ^^^ rotr s.a 34 ^^^ rotr s.a 39
  let mj := (s.a &&& s.b) ^^^ (s.a &&& s.c) ^^^ (s.b &&& s.c)
  let t2 := w64 (S0 + mj)
  ⟨w64 (t1 + t2), s.a, s.b, s.c, w64 (s.d + t1), s.e, s.f, s.g⟩

/-- All rounds over paired constants and schedule words. -/
def rounds : Work → List Nat → List Nat → Work
  | s, k :: ks, w :: ws => rounds (round s k w) ks ws
  | s, _, _ => s

/-- Compression of one 128-byte block into the chaining value. -/
def compress (hv : List Nat) (blk : List Nat) : List Nat :=
  let ws := (schedule 64 (toWords 16 blk).reverse).reverse
  let s0 : Work := ⟨hv.getD 0 0, hv.getD 1 0, hv.getD 2 0, hv.getD 3 0,
                    hv.getD 4 0, hv.getD 5 0, hv.getD 6 0, hv.getD 7 0⟩
  let s := rounds s0 sha512K ws
  [w64 (s0.a + s.a), w64 (s0.b + s.b), w64 (s0.c + s.c), w64 (s0.d + s.d),
   w64 (s0.e + s.e), w64 (s0.f + s.f), w64 (s0.g + s.g), w64 (s0.h + s.h)]

/-- Iterate the compression function over n blocks. -/
def absorb : Nat → List Nat → List Nat → List Nat
  | 0, hv, _ => hv
  | n + 1, hv, bs => absorb n (compress hv (bs.take 128)) (bs.drop 128)

/-- Padding of SHA-512: 0x80, zeros up to 112 mod 128, 128-bit big-endian bit length. -/
def sha512Pad (m : List Nat) : List Nat :=
  m ++ 0x80 :: List.replicate ((239 - m.length % 128) % 128) 0 ++ beBytes 16 (8 * m.length)

/-- SHA-512 digest of a byte list (crypto/sha512), 64 bytes. -/
def sha512 (m : List Nat) : List Nat :=
  let p := sha512Pad m
  (absorb (p.length / 128) sha512Init p).flatMap (beBytes 8)

/- ## Go runtime pieces used by the package -/

/-- Go's builtin copy on byte slices: the first min(len dst, len src) bytes of dst are replaced. -/
def copy (dst src : List Nat) : List Nat :=
  src.take dst.length ++ dst.drop src.length

/-- A zeroed byte array of the given size (var a [n]byte). -/
def zeros (n : Nat) : List Nat := List.replicate n 0

/-- Value read by binary.LittleEndian.Uint64 from a byte slice. -/
def leUint64 (b : List Nat) : Nat :=
  b.getD 0 0 + b.getD 1 0 * 2 ^ 8 + b.getD 2 0 * 2 ^ 16 + b.getD 3 0 * 2 ^ 24 +
  b.getD 4 0 * 2 ^ 32 + b.getD 5 0 * 2 ^ 40 + b.getD 6 0 * 2 ^ 48 + b.getD 7 0 * 2 ^ 56

/-- State of a hash.Hash made by sha512.New: the bytes written since the last Reset. -/
structure Hasher where
  written : List Nat
deriving DecidableEq, Repr

/-- The hasher sha512.New() returns. -/
def Hasher.new : Hasher := ⟨[]⟩

/-- Method Write: absorb more bytes. -/
def Hasher.Write (h : Hasher) (p : List Nat) : Hasher := ⟨h.written ++ p⟩

/-- Method Reset: forget everything written. -/
def Hasher.Reset (_h : Hasher) : Hasher := ⟨[]⟩

/-- Method Sum(b): APPENDS the digest of the bytes written so far to b and returns the
resulting slice; b itself is not hashed. -/
def Hasher.Sum (h : Hasher) (b : List Nat) : List Nat := b ++ sha512 h.written

/-- Error values: errors.New("no entropy source") of this package, and the three errors
io.ReadAtLeast can produce. -/
inductive GoError where
  | noEntropy
  | shortBuffer
  | eof
  | unexpectedEOF
deriving DecidableEq, Repr

/- ## The entropy collaborator -/

/-- Modelled from the spec: the host import random_get (declared as _wasi_random_get, its body
lives in the WASI host). Section 6 of the spec: it must fill the entire buffer or fail, partial
fills are not a defined outcome. The answer to the k-th request is either some d, the bytes the
host puts into the buffer (errno 0), or none (errno non-zero, nothing written). -/
abbrev Host := Nat → Option (List Nat)

/-- Function getRandom: hands the slice p to the host on its k-th request. What the host
stores are bytes, so each value is taken modulo 256. -/
def getRandom (host : Host) (k : Nat) (p : List Nat) : List Nat × Option GoError :=
  match host k with
  | some d => (copy p (d.map (fun x => x % 256)), none)
  | none => (p, some GoError.noEntropy)

/- ## The generator -/

/-- The struct reader; mu is true while the mutex is held. -/
structure reader where
  mu : Bool
  block : List Nat
  c : List Nat
  ctr : Nat
  initialized : Bool
deriving DecidableEq, Repr

/-- The generator together with the number of entropy requests issued so far. -/
structure Machine where
  r : reader
  asked : Nat
deriving DecidableEq, Repr

/-- How a call ends: it returns, or it waits forever in r.mu.Lock() on a mutex that is
already held (sync.Mutex is not reentrant), or its loop was cut by the fuel bound. -/
inductive Outcome (α : Type) where
  | ret (v : α)
  | blocked (m : Machine)
  | spin
deriving DecidableEq, Repr

/-- The value newReader() builds: the zero reader. -/
def newReader : Machine := ⟨⟨false, zeros 64, zeros 64, 0, false⟩, 0⟩

/-- Method Unlock of the mutex. -/
def Machine.unlock (m : Machine) : Machine := { m with r := { m.r with mu := false } }

/-- The for loop of update, n iterations from index i:
block[i] ^= hv[i] ^ c[i] ^ byte(xctr); hv[i] = 0; xctr >>= 8. -/
def mixLoop : Nat → Nat → List Nat → List Nat → List Nat → Nat → List Nat × List Nat
  | 0, _, block, hv, _, _ => (block, hv)
  | n + 1, i, block, hv, c, xctr =>
    mixLoop n (i + 1)
      (block.set i (block.getD i 0 ^^^ (hv.getD i 0 ^^^ c.getD i 0 ^^^ (xctr % 256))))
      (hv.set i 0) c (xctr >>> 8)

/-- Method Reseed. -/
def reader.Reseed (host : Host) (m : Machine) : Outcome (Machine × Option GoError) :=
  let hasher := Hasher.new.Write [0x01]
  if m.r.mu then Outcome.blocked m else
  let r := { m.r with mu := true }
  let hasher := hasher.Write r.block
  let got := getRandom host m.asked (r.block.take 64)
  let r := { r with block := copy r.block got.1 }
  match got.2 with
  | some e => Outcome.ret (⟨{ r with mu := false }, m.asked + 1⟩, some e)
  | none =>
    let hasher := hasher.Write r.block
    let r := { r with block := copy r.block (hasher.Sum []) }
    let hasher := hasher.Reset.Write [0x00]
    let r := { r with c := copy r.c (hasher.Sum r.block) }
    let hasher := hasher.Reset.Write [0x04]
    let ctr0 := copy (zeros 8) (hasher.Sum r.block)
    let r := { r with ctr := leUint64 ctr0 }
    Outcome.ret (⟨{ r with mu := false }, m.asked + 1⟩, none)

/-- Method update; the result of the Reseed it calls is dropped, as in the source. -/
def reader.update (host : Host) (m : Machine) : Outcome Machine :=
  let hasher := Hasher.new.Write [0x03]
  let hv := copy (zeros 64) (hasher.Sum m.r.block)
  let xctr := m.r.ctr
  let mixed := mixLoop 64 0 m.r.block hv m.r.c xctr
  let r := { m.r with block := mixed.1 }
  if r.ctr = 0 then
    match reader.Reseed host ⟨r, m.asked⟩ with
    | Outcome.ret (m2, _) => Outcome.ret { m2 with r := { m2.r with ctr := (m2.r.ctr + 1) % 2 ^ 64 } }
    | Outcome.blocked s => Outcome.blocked s
    | Outcome.spin => Outcome.spin
  else
    Outcome.ret ⟨{ r with ctr := (r.ctr + 1) % 2 ^ 64 }, m.asked⟩

/-- Method seedIfNeeded. -/
def reader.seedIfNeeded (host : Host) (m : Machine) : Outcome (Machine × Option GoError) :=
  if m.r.initialized then Outcome.ret (m, none) else
  let got := getRandom host m.asked (m.r.block.take 64)
  let r := { m.r with block := copy m.r.block got.1 }
  match got.2 with
  | some e => Outcome.ret (⟨r, m.asked + 1⟩, some e)
  | none =>
    let hasher := Hasher.new.Write [0x00]
    let r := { r with c := copy r.c (hasher.Sum r.block) }
    let hasher := hasher.Reset.Write [0x04]
    let ctr0 := copy (zeros 8) (hasher.Sum r.block)
    let r := { r with ctr := leUint64 ctr0 }
    match reader.update host ⟨r, m.asked + 1⟩ with
    | Outcome.ret m2 => Outcome.ret ({ m2 with r := { m2.r with initialized := true } }, none)
    | Outcome.blocked s => Outcome.blocked s
    | Outcome.spin => Outcome.spin

/-- The inner for loop of Read, n iterations from index i: v[i] ^= byte(xictr); xictr >>= 8. -/
def ctrLoop : Nat → Nat → List Nat → Nat → List Nat
  | 0, _, v, _ => v
  | n + 1, i, v, xictr => ctrLoop n (i + 1) (v.set i (v.getD i 0 ^^^ (xictr % 256))) (xictr >>> 8)

/-- The output loop of Read (for left := len(b); left > 0;), cut after fuel iterations. -/
def outLoop : Nat → Nat → Nat → Nat → List Nat → List Nat → List Nat → Option (List Nat)
  | _, 0, _, _, _, _, b => some b
  | 0, _ + 1, _, _, _, _, _ => none
  | fuel + 1, left + 1, pos, ictr, v, v0, b =>
    let v := copy v v0
    let xictr := ictr
    let v := ctrLoop 64 0 v xictr
    let ictr := (ictr + 1) % 2 ^ 64
    let hasher := Hasher.new.Reset.Write v
    let v := copy v (hasher.Sum [])
    let len := if left + 1 > 64 then 64 else left + 1
    let b := b.take pos ++ copy ((b.drop pos).take len) (v.take len) ++ b.drop (pos + len)
    outLoop fuel (left + 1 - len) (pos + len) ictr v v0 b

/-- Method Read: the buffer after the call, the count and the error it returns. -/
def reader.Read (host : Host) (m : Machine) (b : List Nat) :
    Outcome (Machine × List Nat × Int × Option GoError) :=
  if m.r.mu then Outcome.blocked m else
  let m := { m with r := { m.r with mu := true } }
  match reader.seedIfNeeded host m with
  | Outcome.blocked s => Outcome.blocked s
  | Outcome.spin => Outcome.spin
  | Outcome.ret (m1, some e) => Outcome.ret (m1.unlock, b, -1, some e)
  | Outcome.ret (m1, none) =>
    let v0 := copy (zeros 64) m1.r.block
    match reader.update host m1 with
    | Outcome.blocked s => Outcome.blocked s
    | Outcome.spin => Outcome.spin
    | Outcome.ret m2 =>
      let m3 := m2.unlock
      match outLoop b.length b.length 0 0 (zeros 64) v0 b with
      | none => Outcome.spin
      | some b1 => Outcome.ret (m3, b1, (b.length : Int), none)

/-- The for loop of io.ReadAtLeast on the package Reader, cut after fuel iterations:
for n < min && err == nil { nn, err = r.Read(buf[n:]); n += nn }. -/
def readAtLeastLoop : Nat → Host → Machine → List Nat → Int → Option GoError → Int →
    Outcome (Machine × List Nat × Int × Option GoError)
  | 0, _, m, buf, n, err, min =>
    if n < min ∧ err = none then Outcome.spin else Outcome.ret (m, buf, n, err)
  | fuel + 1, host, m, buf, n, err, min =>
    if n < min ∧ err = none then
      match reader.Read host m (buf.drop n.toNat) with
      | Outcome.ret (m1, b1, nn, e) =>
        readAtLeastLoop fuel host m1 (buf.take n.toNat ++ b1) (n + nn) e min
      | Outcome.blocked s => Outcome.blocked s
      | Outcome.spin => Outcome.spin
    else Outcome.ret (m, buf, n, err)

/-- Function io.ReadAtLeast of the Go standard library, reading from the package Reader. -/
def readAtLeast (host : Host) (m : Machine) (buf : List Nat) (min : Int) :
    Outcome (Machine × List Nat × Int × Option GoError) :=
  if (buf.length : Int) < min then Outcome.ret (m, buf, 0, some GoError.shortBuffer) else
  match readAtLeastLoop (buf.length + 1) host m buf 0 none min with
  | Outcome.ret (m1, b1, n, err) =>
    if n ≥ min then Outcome.ret (m1, b1, n, none)
    else if n > 0 ∧ err = some GoError.eof then Outcome.ret (m1, b1, n, some GoError.unexpectedEOF)
    else Outcome.ret (m1, b1, n, err)
  | Outcome.blocked s => Outcome.blocked s
  | Outcome.spin => Outcome.spin

/-- The package-level Read: io.ReadFull(Reader, b), that is ReadAtLeast(Reader, b, len(b)). -/
def Read (host : Host) (m : Machine) (b : List Nat) :
    Outcome (Machine × List Nat × Int × Option GoError) :=
  readAtLeast host m b (b.length : Int)

/- ## Spec-side definitions -/

/-- The i-th least-significant byte of x. -/
def leByte (x i : Nat) : Nat := (x / 256 ^ i) % 256

/-- Spec side of the output step: v0 with its first 8 bytes XORed against the little-endian
bytes of the block index j, bytes 8..63 unchanged. -/
def blockJ (v0 : List Nat) (j : Nat) : List Nat :=
  List.zipWith (fun a b => a ^^^ b) (v0.take 8) ((List.range 8).map (leByte j)) ++ v0.drop 8

/-- Spec side of the output step: the first n bytes of Hash(block_0) ‖ Hash(block_1) ‖ ... -/
def outStream (v0 : List Nat) (n : Nat) : List Nat :=
  ((List.range ((n + 63) / 64)).flatMap (fun j => sha512 (blockJ v0 j))).take n

/-- The block the mixing loop of update leaves (lines 37-46 of the source). -/
def reader.mixed (r : reader) : List Nat :=
  (mixLoop 64 0 r.block (copy (zeros 64) ((Hasher.new.Write [0x03]).Sum r.block)) r.c r.ctr).1

/-- Well-formed reader value: both arrays hold 64 bytes and the counter is a uint64. -/
def reader.wf (r : reader) : Prop :=
  r.block.length = 64 ∧ r.c.length = 64 ∧ r.ctr < 2 ^ 64 ∧
  (∀ x ∈ r.block, x < 256) ∧ (∀ x ∈ r.c, x < 256)

/-- States the package can be in between calls: the zero reader, and whatever a returning
Read or Reseed leaves. A call that never returns leaves no later state. -/
inductive Reachable (host : Host) : Machine → Prop where
  | init : Reachable host newReader
  | read (m : Machine) (b : List Nat) (m1 : Machine) (out : List Nat) (n : Int)
      (e : Option GoError) :
      Reachable host m → reader.Read host m b = Outcome.ret (m1, out, n, e) →
      Reachable host m1
  | reseed (m m1 : Machine) (e : Option GoError) :
      Reachable host m → reader.Reseed host m = Outcome.ret (m1, e) → Reachable host m1

/-- The snapshot v0 a Read takes (lines 99-105 of the source): the block after seeding,
before update; none when the call does not get that far. -/
def reader.snapshot (host : Host) (m : Machine) : Option (List Nat) :=
  if m.r.mu then none else
  match reader.seedIfNeeded host { m with r := { m.r with mu := true } } with
  | Outcome.ret (m1, none) => some (copy (zeros 64) m1.r.block)
  | _ => none

/-- The 64 bytes the buffer holds after the host answered d to a request on block. -/
def entropyBlock (block d : List Nat) : List Nat := copy block (d.map (fun x => x % 256))

/-- Invariant of the states between calls: the mutex is free, the reader is well formed,
and once seeded the block is either C with the previous counter folded into its first
8 bytes (left by update) or equal to C (left by Reseed). -/
def Inv (m : Machine) : Prop :=
  m.r.mu = false ∧ m.r.wf ∧
  (m.r.initialized = true →
    m.r.block = blockJ m.r.c ((m.r.ctr + (2 ^ 64 - 1)) % 2 ^ 64) ∨ m.r.block = m.r.c)

/- ## Concrete inputs used below -/

/-- An entropy source that always answers FE FF FF FF FF FF FF FF followed by 56 zero bytes:
the counter seed is 2^64 - 2. -/
def hostFE : Host := fun _ => some (0xFE :: (List.replicate 7 0xFF ++ zeros 56))

/-- The state the first Read leaves when the entropy source is hostFE: seeded, counter 0. -/
def seededZero : Machine :=
  ⟨⟨false, 1 :: zeros 63, 0xFE :: (List.replicate 7 0xFF ++ zeros 56), 0, true⟩, 1⟩

/-- The state in which the second Read under hostFE is stuck: mutex held, waiting in Reseed. -/
def stuckZero : Machine :=
  ⟨⟨true, 0xFE :: (List.replicate 7 0xFF ++ zeros 56),
    0xFE :: (List.replicate 7 0xFF ++ zeros 56), 0, true⟩, 1⟩

/-- An entropy source that always fails. -/
def hostNone : Host := fun _ => none

/-- An entropy source that always answers 02 followed by 63 zero bytes. -/
def hostTwo : Host := fun _ => some (2 :: zeros 63)

/-- The state the first Read leaves under hostTwo. -/
def afterFirstTwo : Machine := ⟨⟨false, 1 :: zeros 63, 2 :: zeros 63, 4, true⟩, 1⟩

/-- The state the second Read leaves under hostTwo. -/
def afterSecondTwo : Machine := ⟨⟨false, 6 :: zeros 63, 2 :: zeros 63, 5, true⟩, 1⟩

/-- The SHA-512 digest of 64 zero bytes. -/
def digestA : List Nat :=
  [123, 233, 253, 164, 143, 65, 121, 230, 17, 198, 152, 167, 60, 255, 9, 250,
   247, 40, 105, 67, 30, 254, 230, 234, 173, 20, 222, 12, 180, 75, 191, 102,
   80, 63, 117, 43, 122, 142, 177, 112, 131, 53, 95, 60, 230, 235, 125, 40,
   6, 242, 54, 178, 90, 249, 106, 36, 226, 43, 136, 116, 5, 194, 0, 129]

/-- The SHA-512 digest of the byte 01 followed by 63 zero bytes. -/
def digestB : List Nat :=
  [254, 140, 7, 62, 238, 175, 171, 242, 246, 223, 30, 106, 141, 216, 51, 251,
   19, 86, 200, 154, 202, 21, 15, 248, 201, 253, 55, 254, 5, 0, 115, 226,
   73, 236, 125, 156, 50, 151, 98, 146, 29, 6, 171, 4, 150, 197, 155, 51,
   30, 10, 117, 78, 45, 254, 24, 54, 107, 193, 133, 136, 90, 38, 145, 124]

/-- An entropy source that fails on the first request and answers 64 zero bytes afterwards. -/
def hostFailThenZero : Host := fun k => if k = 0 then none else some (zeros 64)

/-- An entropy source that answers the bytes of hostFE once and fails afterwards. -/
def hostFEThenFail : Host :=
  fun k => if k = 0 then some (0xFE :: (List.replicate 7 0xFF ++ zeros 56)) else none

/-- An entropy source that always answers 64 zero bytes. -/
def hostZero : Host := fun _ => some (zeros 64)

/-- Spec side of update (section 4.2, steps 1-2): digest = Hash(0x03 ‖ V) and, for each
i in 0..63, V[i] XOR digest[i] XOR C[i] XOR byte_i(counter), the counter byte being 0 for
i >= 8. -/
def mixSpec (v cc : List Nat) (ctr : Nat) : List Nat :=
  (List.range 64).map (fun i =>
    v.getD i 0 ^^^ (sha512 (0x03 :: v)).getD i 0 ^^^ cc.getD i 0 ^^^
      (if i < 8 then leByte ctr i else 0))

/-- The fresh reader with the mutex held, as seedIfNeeded finds it inside the first Read. -/
def lockedFresh : Machine := ⟨⟨true, zeros 64, zeros 64, 0, false⟩, 0⟩

/-- The state afterFirstTwo with the mutex held, as update finds it inside the next Read. -/
def lockedFirstTwo : Machine := ⟨⟨true, 1 :: zeros 63, 2 :: zeros 63, 4, true⟩, 1⟩

/-- The state seededZero with the mutex held, as update finds it inside the next Read. -/
def lockedZero : Machine :=
  ⟨⟨true, 1 :: zeros 63, 0xFE :: (List.replicate 7 0xFF ++ zeros 56), 0, true⟩, 1⟩

/-- The state in which the first Read under hostZero is stuck: seeding got 64 zero bytes,
the counter seed is 0, and the Reseed called by update waits on the held mutex. -/
def stuckFresh : Machine := ⟨⟨true, zeros 64, zeros 64, 0, false⟩, 1⟩

/- ## Basic facts about copy and the digest -/

theorem length_copy (dst src : List Nat) : (copy dst src).length = dst.length := by
  simp only [copy, List.length_append, List.length_take, List.length_drop]
  omega

theorem copy_eq_take (dst src : List Nat) (h : dst.length ≤ src.length) :
    copy dst src = src.take dst.length := by
  simp [copy, List.drop_eq_nil_of_le h]

theorem copy_full (dst src : List Nat) (h : dst.length = src.length) : copy dst src = src := by
  rw [copy_eq_take _ _ (le_of_eq h), h, List.take_length]

theorem copy_append_left (dst src tail : List Nat) (h : dst.length = src.length) :
    copy dst (src ++ tail) = src := by
  rw [copy_eq_take _ _ (by simp [h]), h, List.take_left]

theorem length_zeros (n : Nat) : (zeros n).length = n := by simp [zeros]

theorem length_beBytes (n x : Nat) : (beBytes n x).length = n := by
  induction n with
  | zero => rfl
  | succ n ih => simp [beBytes, ih]

theorem beBytes_lt (n x : Nat) : ∀ y ∈ beBytes n x, y < 256 := by
  induction n with
  | zero => simp [beBytes]
  | succ n ih =>
    intro y hy
    simp only [beBytes, List.mem_cons] at hy
    rcases hy with rfl | hy
    · exact Nat.mod_lt _ (by decide)
    · exact ih y hy

theorem length_compress (hv blk : List Nat) : (compress hv blk).length = 8 := by
  simp [compress]

theorem length_absorb (n : Nat) (hv bs : List Nat) (h : hv.length = 8) :
    (absorb n hv bs).length = 8 := by
  induction n generalizing hv bs with
  | zero => simpa [absorb] using h
  | succ n ih => exact ih _ _ (length_compress _ _)

theorem length_flatMap_beBytes (ws : List Nat) :
    (ws.flatMap (beBytes 8)).length = 8 * ws.length := by
  induction ws with
  | nil => rfl
  | cons w ws ih => simp [List.flatMap_cons, length_beBytes, ih]; omega

/-- The digest crypto/sha512 returns has 64 bytes. -/
theorem length_sha512 (m : List Nat) : (sha512 m).length = 64 := by
  simp only [sha512, length_flatMap_beBytes]
  rw [length_absorb _ _ _ (by rfl)]

/-- Every element of the digest is a byte. -/
theorem sha512_lt (m : List Nat) : ∀ y ∈ sha512 m, y < 256 := by
  intro y hy
  simp only [sha512, List.mem_flatMap] at hy
  obtain ⟨w, _, hw⟩ := hy
  exact beBytes_lt 8 w y hw

theorem shiftRight_byte (x i : Nat) : (x >>> (8 * i)) % 256 = leByte x i := by
  rw [leByte, Nat.shiftRight_eq_div_pow, pow_mul]
  norm_num

theorem leByte_eq_zero (x i : Nat) (hx : x < 2 ^ 64) (hi : 8 ≤ i) : leByte x i = 0 := by
  have h1 : (2:Nat) ^ 64 ≤ 256 ^ i := by
    calc (2:Nat) ^ 64 = 256 ^ 8 := by norm_num
      _ ≤ 256 ^ i := Nat.pow_le_pow_right (by norm_num) hi
  rw [leByte, Nat.div_eq_of_lt (lt_of_lt_of_le hx h1)]

theorem length_ctrLoop (n i : Nat) (v : List Nat) (x : Nat) :
    (ctrLoop n i v x).length = v.length := by
  induction n generalizing i v x with
  | zero => rfl
  | succ n ih => simp [ctrLoop, ih]

theorem getElem?_ctrLoop (n i : Nat) (v : List Nat) (x k : Nat) :
    (ctrLoop n i v x)[k]? =
      if i ≤ k ∧ k < i + n then (v[k]?).map (fun a => a ^^^ leByte x (k - i)) else v[k]? := by
  induction n generalizing i v x with
  | zero =>
    have : ¬ (i ≤ k ∧ k < i + 0) := by omega
    rw [ctrLoop, if_neg this]
  | succ n ih =>
    rw [ctrLoop, ih]
    by_cases hk : k = i
    · subst hk
      have h1 : ¬ (k + 1 ≤ k ∧ k < k + 1 + n) := by omega
      have h2 : k ≤ k ∧ k < k + (n + 1) := by omega
      rw [if_neg h1, if_pos h2]
      by_cases hl : k < v.length
      · rw [List.getElem?_set_self (by simpa using hl)]
        simp [hl, List.getD_eq_getElem?_getD, List.getElem?_eq_getElem hl, leByte]
      · rw [List.getElem?_eq_none (by simpa using hl), List.getElem?_eq_none (not_lt.mp hl)]
        rfl
    · rw [List.getElem?_set_ne (Ne.symm hk)]
      by_cases hr : i + 1 ≤ k ∧ k < i + 1 + n
      · have h2 : i ≤ k ∧ k < i + (n + 1) := by omega
        rw [if_pos hr, if_pos h2]
        have : leByte (x >>> 8) (k - (i + 1)) = leByte x (k - i) := by
          rw [← shiftRight_byte, ← shiftRight_byte, ← Nat.shiftRight_add]
          congr 2; omega
        rw [this]
      · have h2 : ¬ (i ≤ k ∧ k < i + (n + 1)) := by omega
        rw [if_neg hr, if_neg h2]

theorem getElem?_blockJ (v0 : List Nat) (j k : Nat) :
    (blockJ v0 j)[k]? =
      if k < 8 then (v0[k]?).map (fun a => a ^^^ leByte j k) else v0[k]? := by
  unfold blockJ
  by_cases hk : k < 8
  · rw [if_pos hk]
    by_cases hl : k < v0.length
    · rw [List.getElem?_append_left (by simp; omega)]
      simp [List.getElem?_zipWith, List.getElem?_take, hk, List.getElem?_eq_getElem hl,
        List.getElem?_range hk]
    · rw [List.getElem?_eq_none (not_lt.mp hl), List.getElem?_eq_none]
      · rfl
      · simp; omega
  · rw [if_neg hk]
    by_cases hl : 8 ≤ v0.length
    · rw [List.getElem?_append_right (by simp; omega)]
      simp only [List.length_zipWith, List.length_take, List.length_map, List.length_range,
        List.getElem?_drop]
      congr 1; omega
    · have h1 : v0[k]? = none := List.getElem?_eq_none (by omega)
      rw [h1, List.getElem?_eq_none]
      simp only [List.length_append, List.length_zipWith, List.length_take, List.length_map,
        List.length_range, List.length_drop]
      omega

/-- The inner loop of Read computes block_j from the snapshot. -/
theorem ctrLoop_eq_blockJ (v : List Nat) (x : Nat) (hx : x < 2 ^ 64) :
    ctrLoop 64 0 v x = blockJ v x := by
  apply List.ext_getElem?
  intro k
  rw [getElem?_ctrLoop, getElem?_blockJ]
  by_cases hk : k < 8
  · rw [if_pos (by omega), if_pos hk]; simp
  · rw [if_neg hk]
    by_cases h64 : k < 64
    · rw [if_pos (by omega), Nat.sub_zero, leByte_eq_zero x k hx (by omega)]
      cases v[k]? <;> simp
    · rw [if_neg (by omega)]

theorem leByte_mod (x i : Nat) (hi : i < 8) : leByte (x % 2 ^ 64) i = leByte x i := by
  unfold leByte
  have h : (2:Nat) ^ 64 = 256 ^ i * (256 * 256 ^ (7 - i)) := by
    rw [← pow_succ', ← pow_add]
    have : i + (7 - i + 1) = 8 := by omega
    rw [this]; norm_num
  rw [h, Nat.mod_mul_right_div_self, Nat.mod_mul_right_mod]

theorem blockJ_mod (v0 : List Nat) (j : Nat) : blockJ v0 (j % 2 ^ 64) = blockJ v0 j := by
  apply List.ext_getElem?
  intro k
  rw [getElem?_blockJ, getElem?_blockJ]
  by_cases hk : k < 8
  · rw [if_pos hk, if_pos hk, leByte_mod j k hk]
  · rw [if_neg hk, if_neg hk]

theorem length_blockJ (v0 : List Nat) (j : Nat) (h : v0.length = 64) :
    (blockJ v0 j).length = 64 := by
  simp [blockJ, h]

/-- Splitting the first chunk off the output stream. -/
theorem stream_split (F : Nat → List Nat) (hF : ∀ j, (F j).length = 64) (t left : Nat) :
    ((List.range' t ((left + 1 + 63) / 64)).flatMap F).take (left + 1) =
      (F t).take (if left + 1 > 64 then 64 else left + 1) ++
      ((List.range' (t + 1)
          ((left + 1 - (if left + 1 > 64 then 64 else left + 1) + 63) / 64)).flatMap F).take
        (left + 1 - (if left + 1 > 64 then 64 else left + 1)) := by
  have hk : (left + 1 + 63) / 64 = (left + 1 - 1) / 64 + 1 := by omega
  rw [hk, List.range'_succ, List.flatMap_cons]
  by_cases h : left + 1 > 64
  · rw [if_pos h, List.take_append_eq_append_take, hF, List.take_of_length_le (by rw [hF]; omega),
      List.take_of_length_le (le_of_eq (hF t))]
    have : (left + 1 - 1) / 64 = (left + 1 - 64 + 63) / 64 := by omega
    rw [this]
  · rw [if_neg h]
    have : (left + 1 - 1) / 64 = 0 := by omega
    rw [this]
    simp

theorem outLoop_spec (fuel : Nat) : ∀ (left pos t : Nat) (v v0 b : List Nat),
    left ≤ fuel → pos + left = b.length → v.length = 64 → v0.length = 64 →
    outLoop fuel left pos (t % 2 ^ 64) v v0 b =
      some (b.take pos ++
        ((List.range' t ((left + 63) / 64)).flatMap (fun j => sha512 (blockJ v0 j))).take left) := by
  induction fuel with
  | zero =>
    intro left pos t v v0 b hl hp _ _
    obtain rfl : left = 0 := by omega
    rw [outLoop]
    simp [← hp]
  | succ f ih =>
    intro left pos t v v0 b hl hp hv hv0
    cases left with
    | zero =>
      rw [outLoop]
      simp [← hp]
    | succ l =>
      rw [outLoop]
      have e1 : copy v v0 = v0 := copy_full _ _ (by rw [hv, hv0])
      have e2 : ctrLoop 64 0 v0 (t % 2 ^ 64) = blockJ v0 t := by
        rw [ctrLoop_eq_blockJ _ _ (Nat.mod_lt _ (by norm_num)), blockJ_mod]
      have e3 : (t % 2 ^ 64 + 1) % 2 ^ 64 = (t + 1) % 2 ^ 64 := by omega
      have e4 : (Hasher.new.Reset.Write (blockJ v0 t)).Sum [] = sha512 (blockJ v0 t) := by
        simp [Hasher.Sum, Hasher.Write, Hasher.Reset]
      have e5 : copy (blockJ v0 t) (sha512 (blockJ v0 t)) = sha512 (blockJ v0 t) :=
        copy_full _ _ (by rw [length_blockJ _ _ hv0, length_sha512])
      rw [e1, e2, e3, e4, e5]
      generalize hlen : (if l + 1 > 64 then 64 else l + 1) = len
      have hlen1 : len ≤ 64 ∧ len ≤ l + 1 ∧ 1 ≤ len := by
        subst hlen; split <;> omega
      set D := sha512 (blockJ v0 t) with hD
      have hDl : D.length = 64 := length_sha512 _
      have e6 : copy ((b.drop pos).take len) (D.take len) = D.take len :=
        copy_full _ _ (by simp [hDl]; omega)
      rw [e6, ih (l + 1 - len) (pos + len) (t + 1) D v0 _ (by omega)
        (by simp [hDl]; omega) hDl hv0]
      have e7 : (b.take pos ++ D.take len ++ b.drop (pos + len)).take (pos + len) =
          b.take pos ++ D.take len := by
        rw [List.take_left']
        simp [hDl]; omega
      rw [e7]
      have := stream_split (fun j => sha512 (blockJ v0 j)) (fun j => length_sha512 _) t l
      rw [hlen] at this
      rw [this, List.append_assoc]

theorem length_mixLoop (n i : Nat) (block hv c : List Nat) (x : Nat) :
    (mixLoop n i block hv c x).1.length = block.length := by
  induction n generalizing i block hv x with
  | zero => rfl
  | succ n ih => simp [mixLoop, ih]

theorem getElem?_mixLoop (n i : Nat) (block hv c : List Nat) (x k : Nat) :
    (mixLoop n i block hv c x).1[k]? =
      if i ≤ k ∧ k < i + n then
        (block[k]?).map (fun a => a ^^^ (hv.getD k 0 ^^^ c.getD k 0 ^^^ leByte x (k - i)))
      else block[k]? := by
  induction n generalizing i block hv x with
  | zero =>
    have : ¬ (i ≤ k ∧ k < i + 0) := by omega
    rw [mixLoop, if_neg this]
  | succ n ih =>
    rw [mixLoop, ih]
    by_cases hk : k = i
    · subst hk
      have h1 : ¬ (k + 1 ≤ k ∧ k < k + 1 + n) := by omega
      have h2 : k ≤ k ∧ k < k + (n + 1) := by omega
      rw [if_neg h1, if_pos h2]
      by_cases hl : k < block.length
      · rw [List.getElem?_set_self (by simpa using hl)]
        simp [hl, List.getD_eq_getElem?_getD, List.getElem?_eq_getElem hl, leByte]
      · rw [List.getElem?_eq_none (by simpa using hl), List.getElem?_eq_none (not_lt.mp hl)]
        rfl
    · rw [List.getElem?_set_ne (Ne.symm hk)]
      by_cases hr : i + 1 ≤ k ∧ k < i + 1 + n
      · have h2 : i ≤ k ∧ k < i + (n + 1) := by omega
        rw [if_pos hr, if_pos h2]
        have e1 : leByte (x >>> 8) (k - (i + 1)) = leByte x (k - i) := by
          rw [← shiftRight_byte, ← shiftRight_byte, ← Nat.shiftRight_add]
          congr 2; omega
        have e2 : (hv.set i 0).getD k 0 = hv.getD k 0 := by
          simp [List.getD_eq_getElem?_getD, List.getElem?_set_ne (Ne.symm hk)]
        rw [e1, e2]
      · have h2 : ¬ (i ≤ k ∧ k < i + (n + 1)) := by omega
        rw [if_neg hr, if_neg h2]

/-- What the mixing loop of update computes when hv holds a copy of block: the old block
cancels and C with the counter folded into its first 8 bytes remains. -/
theorem mixLoop_self (block c : List Nat) (x : Nat) (hb : block.length = 64)
    (hc : c.length = 64) (hx : x < 2 ^ 64) :
    (mixLoop 64 0 block block c x).1 = blockJ c x := by
  apply List.ext_getElem?
  intro k
  rw [getElem?_mixLoop, getElem?_blockJ]
  by_cases h64 : k < 64
  · rw [if_pos (by omega), Nat.sub_zero]
    have hkb : k < block.length := by omega
    have hkc : k < c.length := by omega
    simp only [List.getD_eq_getElem?_getD, List.getElem?_eq_getElem hkb,
      List.getElem?_eq_getElem hkc, Option.map_some', Option.getD_some]
    have hx1 : ∀ a b l : Nat, a ^^^ (a ^^^ b ^^^ l) = b ^^^ l := by
      intro a b l
      rw [Nat.xor_assoc, ← Nat.xor_assoc, Nat.xor_self, Nat.zero_xor]
    rw [hx1]
    by_cases hk : k < 8
    · rw [if_pos hk]
    · rw [if_neg hk, leByte_eq_zero x k hx (by omega), Nat.xor_zero]
  · rw [if_neg (by omega), if_neg (by omega), List.getElem?_eq_none (by omega),
      List.getElem?_eq_none (by omega)]

/-- In update hv receives the first 64 bytes of Sum(block), which are block itself. -/
theorem update_hv (block : List Nat) (hb : block.length = 64) :
    copy (zeros 64) ((Hasher.new.Write [0x03]).Sum block) = block := by
  rw [Hasher.Sum, copy_append_left _ _ _ (by rw [length_zeros, hb])]

theorem copy_take_self (dst : List Nat) (n : Nat) : copy dst (dst.take n) = dst := by
  unfold copy
  rw [List.take_take, List.length_take]
  by_cases h : n ≤ dst.length
  · rw [Nat.min_eq_left h, Nat.min_eq_right h, List.take_append_drop]
  · have h1 : dst.length ≤ n := by omega
    rw [Nat.min_eq_right h1, Nat.min_eq_left h1, List.take_length, List.drop_length,
      List.append_nil]

theorem mixed_eq (r : reader) (hb : r.block.length = 64) (hc : r.c.length = 64)
    (hx : r.ctr < 2 ^ 64) : r.mixed = blockJ r.c r.ctr := by
  rw [reader.mixed, update_hv _ hb, mixLoop_self _ _ _ hb hc hx]

theorem length_mixed (r : reader) : r.mixed.length = r.block.length := by
  rw [reader.mixed, length_mixLoop]

/-- With a non-zero counter update asks for no entropy and returns. -/
theorem update_ret (host : Host) (m : Machine) (h : m.r.ctr ≠ 0) :
    reader.update host m =
      Outcome.ret ⟨{ m.r with block := m.r.mixed, ctr := (m.r.ctr + 1) % 2 ^ 64 }, m.asked⟩ := by
  simp [reader.update, reader.mixed, h]

/-- With a zero counter and the mutex held (as it is inside Read) update never returns:
the Reseed it calls waits on the mutex its own caller holds. -/
theorem update_blocked (host : Host) (m : Machine) (h : m.r.ctr = 0) (hmu : m.r.mu = true) :
    reader.update host m = Outcome.blocked ⟨{ m.r with block := m.r.mixed }, m.asked⟩ := by
  simp [reader.update, reader.mixed, h, reader.Reseed, hmu]

/-- A Reseed that finds the mutex held waits forever and asks for no entropy. -/
theorem Reseed_blocked (host : Host) (m : Machine) (hmu : m.r.mu = true) :
    reader.Reseed host m = Outcome.blocked m := by
  simp [reader.Reseed, hmu]

/-- A Reseed whose entropy request fails returns the error and restores the state. -/
theorem Reseed_fail (host : Host) (m : Machine) (hmu : m.r.mu = false)
    (hf : host m.asked = none) :
    reader.Reseed host m = Outcome.ret (⟨m.r, m.asked + 1⟩, some GoError.noEntropy) := by
  have : ({ m.r with mu := false } : reader) = m.r := by
    cases m with | mk r a => cases r; simp_all
  simp [reader.Reseed, hmu, getRandom, hf, copy_take_self, this]

theorem getD_take (l : List Nat) (n i : Nat) (h : i < n) : (l.take n).getD i 0 = l.getD i 0 := by
  simp [List.getD_eq_getElem?_getD, List.getElem?_take, h]

theorem leUint64_copy8 (l t : List Nat) (h : 8 ≤ l.length) :
    leUint64 (copy (zeros 8) (l ++ t)) = leUint64 l := by
  rw [copy_eq_take _ _ (by simp [zeros]; omega), length_zeros, List.take_append_of_le_length h]
  simp [leUint64, getD_take]

theorem map_mod_id (f : List Nat) (hfb : ∀ x ∈ f, x < 256) : f.map (fun x => x % 256) = f := by
  conv_rhs => rw [← List.map_id f]
  apply List.map_congr_left
  intro x hx
  exact Nat.mod_eq_of_lt (hfb x hx)

/-- A Reseed whose entropy request succeeds. -/
theorem Reseed_ok (host : Host) (m : Machine) (f : List Nat) (hmu : m.r.mu = false)
    (hb : m.r.block.length = 64) (hc : m.r.c.length = 64) (hf : host m.asked = some f)
    (hfl : f.length = 64) (hfb : ∀ x ∈ f, x < 256) :
    reader.Reseed host m =
      Outcome.ret (⟨{ m.r with
          block := sha512 (0x01 :: (m.r.block ++ f)),
          c := sha512 (0x01 :: (m.r.block ++ f)),
          ctr := leUint64 (sha512 (0x01 :: (m.r.block ++ f))) }, m.asked + 1⟩, none) := by
  have e1 : copy (m.r.block.take 64) f = f := copy_full _ _ (by simp [hb, hfl])
  have e2 : copy m.r.block f = f := copy_full _ _ (by rw [hb, hfl])
  have e3 : ∀ d : List Nat, d.length = 64 → copy f d = d :=
    fun d hd => copy_full _ _ (by rw [hfl, hd])
  have e4 : ∀ d t : List Nat, d.length = 64 → copy m.r.c (d ++ t) = d :=
    fun d t hd => copy_append_left _ _ _ (by rw [hc, hd])
  have e5 : ∀ d t : List Nat, d.length = 64 → leUint64 (copy (zeros 8) (d ++ t)) = leUint64 d :=
    fun d t hd => leUint64_copy8 _ _ (by omega)
  simp only [reader.Reseed, hmu, getRandom, hf, map_mod_id f hfb, e1, e2, Hasher.Write,
    Hasher.new, Hasher.Reset, Hasher.Sum, List.nil_append, List.singleton_append,
    List.cons_append, List.append_assoc, Bool.false_eq_true, if_false,
    e3 _ (length_sha512 _), e4 _ _ (length_sha512 _), e5 _ _ (length_sha512 _)]

/-- The output loop of Read, run on the whole buffer with fuel len(b), finishes and leaves
the first len(b) bytes of the stream derived from v0. -/
theorem outLoop_Read (v0 b : List Nat) (hv0 : v0.length = 64) :
    outLoop b.length b.length 0 0 (zeros 64) v0 b = some (outStream v0 b.length) := by
  have h := outLoop_spec b.length b.length 0 0 (zeros 64) v0 b (le_refl _) (by simp)
    (length_zeros 64) hv0
  rw [Nat.zero_mod] at h
  rw [h, outStream, List.take_zero, List.nil_append, List.range_eq_range']

theorem length_outStream (v0 : List Nat) (n : Nat) : (outStream v0 n).length = n := by
  have h : ∀ k, ((List.range k).flatMap (fun j => sha512 (blockJ v0 j))).length = 64 * k := by
    intro k
    induction k with
    | zero => rfl
    | succ k ih =>
      rw [List.range_succ, List.flatMap_append, List.length_append, ih]
      simp [length_sha512]; omega
  rw [outStream, List.length_take, h]
  omega

theorem seed_done (host : Host) (m : Machine) (h : m.r.initialized = true) :
    reader.seedIfNeeded host m = Outcome.ret (m, none) := by
  simp [reader.seedIfNeeded, h]

theorem seed_fail (host : Host) (m : Machine) (h : m.r.initialized = false)
    (hf : host m.asked = none) :
    reader.seedIfNeeded host m = Outcome.ret (⟨m.r, m.asked + 1⟩, some GoError.noEntropy) := by
  obtain ⟨⟨mu, block, c, ctr, ini⟩, asked⟩ := m
  simp only at h hf
  subst h
  simp [reader.seedIfNeeded, getRandom, hf, copy_take_self]

/-- Read on a seeded generator whose counter is not zero. -/
theorem Read_seeded (host : Host) (m : Machine) (b : List Nat)
    (hi : m.r.initialized = true) (hmu : m.r.mu = false) (hb : m.r.block.length = 64)
    (hc : m.r.ctr ≠ 0) :
    reader.Read host m b =
      Outcome.ret (⟨{ m.r with block := m.r.mixed, ctr := (m.r.ctr + 1) % 2 ^ 64 }, m.asked⟩,
        outStream m.r.block b.length, (b.length : Int), none) := by
  obtain ⟨⟨mu, block, c, ctr, ini⟩, asked⟩ := m
  simp only at hi hmu hb hc
  subst hi hmu
  have e1 : copy (zeros 64) block = block := copy_full _ _ (by rw [length_zeros, hb])
  simp only [reader.Read, Bool.false_eq_true, if_false]
  rw [seed_done host ⟨⟨true, block, c, ctr, true⟩, asked⟩ rfl]
  simp only []
  rw [update_ret _ _ hc]
  simp only [e1, outLoop_Read _ _ hb, Machine.unlock]
  rfl

/-- Read on a seeded generator whose counter is zero never returns. -/
theorem Read_seeded_blocked (host : Host) (m : Machine) (b : List Nat)
    (hi : m.r.initialized = true) (hmu : m.r.mu = false) (hc : m.r.ctr = 0) :
    reader.Read host m b =
      Outcome.blocked ⟨{ m.r with mu := true, block := m.r.mixed }, m.asked⟩ := by
  obtain ⟨⟨mu, block, c, ctr, ini⟩, asked⟩ := m
  simp only at hi hmu hc
  subst hi hmu hc
  simp only [reader.Read, Bool.false_eq_true, if_false]
  rw [seed_done host ⟨⟨true, block, c, 0, true⟩, asked⟩ rfl]
  simp only []
  rw [update_blocked _ _ rfl rfl]
  rfl

/-- Read on an unseeded generator when the entropy source fails. -/
theorem Read_seed_fail (host : Host) (m : Machine) (b : List Nat)
    (hi : m.r.initialized = false) (hmu : m.r.mu = false) (hf : host m.asked = none) :
    reader.Read host m b =
      Outcome.ret (⟨m.r, m.asked + 1⟩, b, -1, some GoError.noEntropy) := by
  obtain ⟨⟨mu, block, c, ctr, ini⟩, asked⟩ := m
  simp only at hi hmu hf
  subst hi hmu
  simp only [reader.Read, Bool.false_eq_true, if_false]
  rw [seed_fail host ⟨⟨true, block, c, ctr, false⟩, asked⟩ rfl hf]
  rfl

/-- A seeding whose entropy request succeeds and whose counter seed is not zero. -/
theorem seed_ok (host : Host) (m : Machine) (d : List Nat)
    (hi : m.r.initialized = false) (hb : m.r.block.length = 64) (hc : m.r.c.length = 64)
    (hd : host m.asked = some d)
    (hk : leUint64 (copy m.r.block (d.map (fun x => x % 256))) ≠ 0) :
    reader.seedIfNeeded host m =
      Outcome.ret (⟨⟨m.r.mu,
          (reader.mk m.r.mu (copy m.r.block (d.map (fun x => x % 256)))
            (copy m.r.block (d.map (fun x => x % 256)))
            (leUint64 (copy m.r.block (d.map (fun x => x % 256)))) false).mixed,
          copy m.r.block (d.map (fun x => x % 256)),
          (leUint64 (copy m.r.block (d.map (fun x => x % 256))) + 1) % 2 ^ 64,
          true⟩, m.asked + 1⟩, none) := by
  obtain ⟨⟨mu, block, c, ctr, ini⟩, asked⟩ := m
  simp only at hi hb hc hd hk
  subst hi
  have e0 : block.take 64 = block := List.take_of_length_le (by omega)
  have e1 : copy block (copy block (d.map (fun x => x % 256))) =
      copy block (d.map (fun x => x % 256)) := copy_full _ _ (by rw [length_copy])
  have e2 : ∀ t, copy c (copy block (d.map (fun x => x % 256)) ++ t) =
      copy block (d.map (fun x => x % 256)) :=
    fun t => copy_append_left _ _ _ (by rw [length_copy, hc, hb])
  have e3 : ∀ t, leUint64 (copy (zeros 8) (copy block (d.map (fun x => x % 256)) ++ t)) =
      leUint64 (copy block (d.map (fun x => x % 256))) :=
    fun t => leUint64_copy8 _ _ (by rw [length_copy]; omega)
  simp only [reader.seedIfNeeded, Bool.false_eq_true, if_false, getRandom, hd, e0, e1,
    Hasher.Sum, e2, e3]
  rw [update_ret _ _ hk]

/-- A seeding whose counter seed is zero never returns when the mutex is held. -/
theorem seed_blocked (host : Host) (m : Machine) (d : List Nat)
    (hi : m.r.initialized = false) (hmu : m.r.mu = true) (hb : m.r.block.length = 64)
    (hc : m.r.c.length = 64) (hd : host m.asked = some d)
    (hk : leUint64 (copy m.r.block (d.map (fun x => x % 256))) = 0) :
    reader.seedIfNeeded host m =
      Outcome.blocked ⟨⟨true,
          (reader.mk true (copy m.r.block (d.map (fun x => x % 256)))
            (copy m.r.block (d.map (fun x => x % 256))) 0 false).mixed,
          copy m.r.block (d.map (fun x => x % 256)), 0, false⟩, m.asked + 1⟩ := by
  obtain ⟨⟨mu, block, c, ctr, ini⟩, asked⟩ := m
  simp only at hi hmu hb hc hd hk
  subst hi hmu
  have e0 : block.take 64 = block := List.take_of_length_le (by omega)
  have e1 : copy block (copy block (d.map (fun x => x % 256))) =
      copy block (d.map (fun x => x % 256)) := copy_full _ _ (by rw [length_copy])
  have e2 : ∀ t, copy c (copy block (d.map (fun x => x % 256)) ++ t) =
      copy block (d.map (fun x => x % 256)) :=
    fun t => copy_append_left _ _ _ (by rw [length_copy, hc, hb])
  have e3 : ∀ t, leUint64 (copy (zeros 8) (copy block (d.map (fun x => x % 256)) ++ t)) =
      leUint64 (copy block (d.map (fun x => x % 256))) :=
    fun t => leUint64_copy8 _ _ (by rw [length_copy]; omega)
  simp only [reader.seedIfNeeded, Bool.false_eq_true, if_false, getRandom, hd, e0, e1,
    Hasher.Sum, e2, e3, hk]
  rw [update_blocked _ _ rfl rfl]

theorem copy_lt (dst src : List Nat) (hd : ∀ x ∈ dst, x < 256) (hs : ∀ x ∈ src, x < 256) :
    ∀ x ∈ copy dst src, x < 256 := by
  intro x hx
  rw [copy, List.mem_append] at hx
  rcases hx with h | h
  · exact hs x (List.mem_of_mem_take h)
  · exact hd x (List.mem_of_mem_drop h)

theorem map_mod_lt (d : List Nat) : ∀ x ∈ d.map (fun x => x % 256), x < 256 := by
  intro x hx
  rw [List.mem_map] at hx
  obtain ⟨y, _, rfl⟩ := hx
  exact Nat.mod_lt _ (by norm_num)

theorem getD_lt (l : List Nat) (h : ∀ x ∈ l, x < 256) (i : Nat) : l.getD i 0 < 256 := by
  rw [List.getD_eq_getElem?_getD]
  by_cases hi : i < l.length
  · rw [List.getElem?_eq_getElem hi]
    exact h _ (List.getElem_mem hi)
  · rw [List.getElem?_eq_none (by omega)]
    simp

theorem leUint64_lt (l : List Nat) (h : ∀ x ∈ l, x < 256) : leUint64 l < 2 ^ 64 := by
  have h0 := getD_lt l h 0
  have h1 := getD_lt l h 1
  have h2 := getD_lt l h 2
  have h3 := getD_lt l h 3
  have h4 := getD_lt l h 4
  have h5 := getD_lt l h 5
  have h6 := getD_lt l h 6
  have h7 := getD_lt l h 7
  unfold leUint64
  omega

theorem leByte_lt (x i : Nat) : leByte x i < 256 := Nat.mod_lt _ (by norm_num)

theorem xor_lt_256 (a b : Nat) (ha : a < 256) (hb : b < 256) : a ^^^ b < 256 :=
  Nat.xor_lt_two_pow (n := 8) ha hb

theorem blockJ_lt (v0 : List Nat) (j : Nat) (h : ∀ x ∈ v0, x < 256) :
    ∀ x ∈ blockJ v0 j, x < 256 := by
  intro x hx
  rw [blockJ, List.mem_append] at hx
  rcases hx with hx | hx
  · rw [List.mem_iff_getElem] at hx
    obtain ⟨i, hi, rfl⟩ := hx
    rw [List.getElem_zipWith]
    apply xor_lt_256
    · exact h _ (List.mem_of_mem_take (List.getElem_mem _))
    · simp [leByte_lt]
  · exact h x (List.mem_of_mem_drop hx)

theorem leByte_of_blockJ_eq (v : List Nat) (x y k : Nat) (hv : v.length = 64) (hk : k < 8)
    (h : blockJ v x = blockJ v y) : leByte x k = leByte y k := by
  have h1 := congrArg (fun l => l[k]?) h
  simp only [getElem?_blockJ, if_pos hk] at h1
  have hkl : k < v.length := by omega
  rw [List.getElem?_eq_getElem hkl] at h1
  simp only [Option.map_some', Option.some.injEq] at h1
  exact Nat.xor_right_inj.mp h1

/-- Different 64-bit indices give different blocks. -/
theorem blockJ_inj (v : List Nat) (x y : Nat) (hv : v.length = 64) (hx : x < 2 ^ 64)
    (hy : y < 2 ^ 64) (h : blockJ v x = blockJ v y) : x = y := by
  have h0 := leByte_of_blockJ_eq v x y 0 hv (by norm_num) h
  have h1 := leByte_of_blockJ_eq v x y 1 hv (by norm_num) h
  have h2 := leByte_of_blockJ_eq v x y 2 hv (by norm_num) h
  have h3 := leByte_of_blockJ_eq v x y 3 hv (by norm_num) h
  have h4 := leByte_of_blockJ_eq v x y 4 hv (by norm_num) h
  have h5 := leByte_of_blockJ_eq v x y 5 hv (by norm_num) h
  have h6 := leByte_of_blockJ_eq v x y 6 hv (by norm_num) h
  have h7 := leByte_of_blockJ_eq v x y 7 hv (by norm_num) h
  simp only [leByte] at h0 h1 h2 h3 h4 h5 h6 h7
  norm_num at h0 h1 h2 h3 h4 h5 h6 h7 hx hy
  omega

theorem blockJ_zero (v : List Nat) : blockJ v 0 = v := by
  apply List.ext_getElem?
  intro k
  rw [getElem?_blockJ]
  by_cases hk : k < 8
  · rw [if_pos hk]
    cases v[k]? <;> simp [leByte]
  · rw [if_neg hk]

theorem length_entropyBlock (block d : List Nat) :
    (entropyBlock block d).length = block.length := length_copy _ _

theorem entropyBlock_lt (block d : List Nat) (h : ∀ x ∈ block, x < 256) :
    ∀ x ∈ entropyBlock block d, x < 256 := copy_lt _ _ h (map_mod_lt d)

theorem entropyBlock_full (block d : List Nat) (hb : block.length = 64) (hd : d.length = 64)
    (hdb : ∀ x ∈ d, x < 256) : entropyBlock block d = d := by
  rw [entropyBlock, map_mod_id d hdb, copy_full _ _ (by rw [hb, hd])]

/-- Read on an unseeded generator, entropy granted, neither update sees a zero counter. -/
theorem Read_unseeded (host : Host) (m : Machine) (b d : List Nat)
    (hi : m.r.initialized = false) (hmu : m.r.mu = false) (hb : m.r.block.length = 64)
    (hc : m.r.c.length = 64) (hd : host m.asked = some d)
    (hk0 : leUint64 (entropyBlock m.r.block d) ≠ 0)
    (hk1 : (leUint64 (entropyBlock m.r.block d) + 1) % 2 ^ 64 ≠ 0) :
    reader.Read host m b =
      Outcome.ret (⟨⟨false,
          (reader.mk true
            (reader.mk true (entropyBlock m.r.block d) (entropyBlock m.r.block d)
              (leUint64 (entropyBlock m.r.block d)) false).mixed
            (entropyBlock m.r.block d)
            ((leUint64 (entropyBlock m.r.block d) + 1) % 2 ^ 64) true).mixed,
          entropyBlock m.r.block d,
          ((leUint64 (entropyBlock m.r.block d) + 1) % 2 ^ 64 + 1) % 2 ^ 64,
          true⟩, m.asked + 1⟩,
        outStream (reader.mk true (entropyBlock m.r.block d) (entropyBlock m.r.block d)
              (leUint64 (entropyBlock m.r.block d)) false).mixed b.length,
        (b.length : Int), none) := by
  obtain ⟨⟨mu, block, c, ctr, ini⟩, asked⟩ := m
  simp only at hi hmu hb hc hd hk0 hk1
  subst hi hmu
  simp only [reader.Read, Bool.false_eq_true, if_false]
  rw [seed_ok host ⟨⟨true, block, c, ctr, false⟩, asked⟩ d rfl hb hc hd hk0]
  simp only []
  rw [update_ret _ _ hk1]
  have hl : (reader.mk true (entropyBlock block d) (entropyBlock block d)
      (leUint64 (entropyBlock block d)) false).mixed.length = 64 := by
    rw [length_mixed]; simp only; rw [length_entropyBlock, hb]
  have e1 : ∀ l : List Nat, l.length = 64 → copy (zeros 64) l = l :=
    fun l h => copy_full _ _ (by rw [length_zeros, h])
  simp only [entropyBlock] at hl ⊢
  simp only [e1 _ hl, outLoop_Read _ _ hl, Machine.unlock]

/-- Read on an unseeded generator whose counter seed is zero: the update inside seeding
never returns. -/
theorem Read_unseeded_blocked0 (host : Host) (m : Machine) (b d : List Nat)
    (hi : m.r.initialized = false) (hmu : m.r.mu = false) (hb : m.r.block.length = 64)
    (hc : m.r.c.length = 64) (hd : host m.asked = some d)
    (hk0 : leUint64 (entropyBlock m.r.block d) = 0) :
    ∃ s, reader.Read host m b = Outcome.blocked s := by
  obtain ⟨⟨mu, block, c, ctr, ini⟩, asked⟩ := m
  simp only at hi hmu hb hc hd hk0
  subst hi hmu
  simp only [reader.Read, Bool.false_eq_true, if_false]
  rw [seed_blocked host ⟨⟨true, block, c, ctr, false⟩, asked⟩ d rfl rfl hb hc hd hk0]
  exact ⟨_, rfl⟩

/-- Read on an unseeded generator whose counter seed is 2^64 - 1: seeding returns with a
zero counter and the update of Read itself never returns. -/
theorem Read_unseeded_blocked1 (host : Host) (m : Machine) (b d : List Nat)
    (hi : m.r.initialized = false) (hmu : m.r.mu = false) (hb : m.r.block.length = 64)
    (hc : m.r.c.length = 64) (hd : host m.asked = some d)
    (hk0 : leUint64 (entropyBlock m.r.block d) ≠ 0)
    (hk1 : (leUint64 (entropyBlock m.r.block d) + 1) % 2 ^ 64 = 0) :
    ∃ s, reader.Read host m b = Outcome.blocked s := by
  obtain ⟨⟨mu, block, c, ctr, ini⟩, asked⟩ := m
  simp only at hi hmu hb hc hd hk0 hk1
  subst hi hmu
  simp only [reader.Read, Bool.false_eq_true, if_false]
  rw [seed_ok host ⟨⟨true, block, c, ctr, false⟩, asked⟩ d rfl hb hc hd hk0]
  simp only []
  rw [update_blocked _ _ hk1 rfl]
  exact ⟨_, rfl⟩

/-- A Reseed whose entropy request is answered with d (any answer). -/
theorem Reseed_some (host : Host) (m : Machine) (d : List Nat) (hmu : m.r.mu = false)
    (hb : m.r.block.length = 64) (hc : m.r.c.length = 64) (hd : host m.asked = some d) :
    reader.Reseed host m =
      Outcome.ret (⟨{ m.r with
          block := sha512 (0x01 :: (m.r.block ++ entropyBlock m.r.block d)),
          c := sha512 (0x01 :: (m.r.block ++ entropyBlock m.r.block d)),
          ctr := leUint64 (sha512 (0x01 :: (m.r.block ++ entropyBlock m.r.block d))) },
        m.asked + 1⟩, none) := by
  have e0 : m.r.block.take 64 = m.r.block := List.take_of_length_le (by omega)
  have e2 : copy m.r.block (copy m.r.block (d.map (fun x => x % 256))) =
      copy m.r.block (d.map (fun x => x % 256)) := copy_full _ _ (by rw [length_copy])
  have e3 : ∀ t : List Nat, t.length = 64 →
      copy (copy m.r.block (d.map (fun x => x % 256))) t = t :=
    fun t ht => copy_full _ _ (by rw [length_copy, hb, ht])
  have e4 : ∀ t u : List Nat, t.length = 64 → copy m.r.c (t ++ u) = t :=
    fun t u ht => copy_append_left _ _ _ (by rw [hc, ht])
  have e5 : ∀ t u : List Nat, t.length = 64 → leUint64 (copy (zeros 8) (t ++ u)) = leUint64 t :=
    fun t u ht => leUint64_copy8 _ _ (by omega)
  simp only [reader.Reseed, hmu, getRandom, hd, e0, e2, Hasher.Write, entropyBlock,
    Hasher.new, Hasher.Reset, Hasher.Sum, List.nil_append, List.singleton_append,
    List.cons_append, List.append_assoc, Bool.false_eq_true, if_false,
    e3 _ (length_sha512 _), e4 _ _ (length_sha512 _), e5 _ _ (length_sha512 _)]

theorem Inv_newReader : Inv newReader := by
  refine ⟨rfl, ⟨rfl, rfl, by norm_num [newReader], ?_, ?_⟩, ?_⟩
  · intro x hx; simp [newReader, zeros] at hx; omega
  · intro x hx; simp [newReader, zeros] at hx; omega
  · intro h; simp [newReader] at h

theorem Inv_asked (r : reader) (a a1 : Nat) (h : Inv ⟨r, a⟩) : Inv ⟨r, a1⟩ := h

/-- A returning Reseed keeps the invariant. -/
theorem Inv_Reseed (host : Host) (m m1 : Machine) (e : Option GoError) (h : Inv m)
    (hr : reader.Reseed host m = Outcome.ret (m1, e)) : Inv m1 := by
  obtain ⟨hmu, ⟨hb, hc, hctr, hbb, hcb⟩, _⟩ := h
  cases hd : host m.asked with
  | none =>
    rw [Reseed_fail host m hmu hd] at hr
    injection hr with hr
    injection hr with h1 h2
    subst h1
    exact ⟨hmu, ⟨hb, hc, hctr, hbb, hcb⟩, by assumption⟩
  | some d =>
    rw [Reseed_some host m d hmu hb hc hd] at hr
    injection hr with hr
    injection hr with h1 h2
    subst h1
    refine ⟨hmu, ⟨length_sha512 _, length_sha512 _, leUint64_lt _ (sha512_lt _),
      sha512_lt _, sha512_lt _⟩, fun _ => Or.inr rfl⟩

theorem snapshot_seeded (host : Host) (m : Machine) (hi : m.r.initialized = true)
    (hmu : m.r.mu = false) (hb : m.r.block.length = 64) :
    reader.snapshot host m = some m.r.block := by
  obtain ⟨⟨mu, block, c, ctr, ini⟩, asked⟩ := m
  simp only at hi hmu hb
  subst hi hmu
  simp only [reader.snapshot, Bool.false_eq_true, if_false]
  rw [seed_done host ⟨⟨true, block, c, ctr, true⟩, asked⟩ rfl]
  simp only []
  rw [copy_full _ _ (by rw [length_zeros, hb])]

theorem snapshot_unseeded (host : Host) (m : Machine) (d : List Nat)
    (hi : m.r.initialized = false) (hmu : m.r.mu = false) (hb : m.r.block.length = 64)
    (hc : m.r.c.length = 64) (hd : host m.asked = some d)
    (hk0 : leUint64 (entropyBlock m.r.block d) ≠ 0) :
    reader.snapshot host m =
      some (reader.mk true (entropyBlock m.r.block d) (entropyBlock m.r.block d)
              (leUint64 (entropyBlock m.r.block d)) false).mixed := by
  obtain ⟨⟨mu, block, c, ctr, ini⟩, asked⟩ := m
  simp only at hi hmu hb hc hd hk0
  subst hi hmu
  simp only [reader.snapshot, Bool.false_eq_true, if_false]
  rw [seed_ok host ⟨⟨true, block, c, ctr, false⟩, asked⟩ d rfl hb hc hd hk0]
  simp only []
  have hl : (reader.mk true (entropyBlock block d) (entropyBlock block d)
      (leUint64 (entropyBlock block d)) false).mixed.length = 64 := by
    rw [length_mixed]; simp only; rw [length_entropyBlock, hb]
  simp only [entropyBlock] at hl ⊢
  rw [copy_full _ _ (by rw [length_zeros, hl])]

/-- What a returning Read does to a state satisfying the invariant: the invariant is kept,
and when no error is returned the block left behind differs from the snapshot the call
derived its output from. -/
theorem Read_step (host : Host) (m : Machine) (b : List Nat) (m1 : Machine) (out : List Nat)
    (n : Int) (e : Option GoError) (h : Inv m)
    (hr : reader.Read host m b = Outcome.ret (m1, out, n, e)) :
    Inv m1 ∧ (e = none → ∃ v0, reader.snapshot host m = some v0 ∧ m1.r.block ≠ v0 ∧
      out = outStream v0 b.length ∧ n = (b.length : Int)) := by
  obtain ⟨hmu, ⟨hb, hc, hctr, hbb, hcb⟩, hinv⟩ := h
  cases hi : m.r.initialized with
  | true =>
    by_cases h0 : m.r.ctr = 0
    · rw [Read_seeded_blocked host m b hi hmu h0] at hr
      cases hr
    · have hmix : m.r.mixed = blockJ m.r.c m.r.ctr := mixed_eq m.r hb hc hctr
      rw [Read_seeded host m b hi hmu hb h0, hmix] at hr
      injection hr with hr
      injection hr with h1 h2
      injection h2 with h2 h3
      injection h3 with h3 h4
      subst h1 h2 h3 h4
      refine ⟨⟨hmu, ⟨length_blockJ _ _ hc, hc, Nat.mod_lt _ (by norm_num),
        blockJ_lt _ _ hcb, hcb⟩, fun _ => Or.inl ?_⟩,
        fun _ => ⟨m.r.block, snapshot_seeded host m hi hmu hb, ?_, rfl, rfl⟩⟩
      · simp only []
        have e : ((m.r.ctr + 1) % 2 ^ 64 + (2 ^ 64 - 1)) % 2 ^ 64 = m.r.ctr := by omega
        rw [e]
      · simp only []
        intro hEq
        rcases hinv hi with hv | hv
        · rw [hv] at hEq
          have := blockJ_inj _ _ _ hc hctr (Nat.mod_lt _ (by norm_num)) hEq
          omega
        · rw [hv] at hEq
          nth_rewrite 2 [← blockJ_zero m.r.c] at hEq
          exact h0 (blockJ_inj _ _ _ hc hctr (by norm_num) hEq)
  | false =>
    cases hd : host m.asked with
    | none =>
      rw [Read_seed_fail host m b hi hmu hd] at hr
      injection hr with hr
      injection hr with h1 h2
      injection h2 with h2 h3
      injection h3 with h3 h4
      subst h1 h4
      exact ⟨⟨hmu, ⟨hb, hc, hctr, hbb, hcb⟩, hinv⟩, fun hne => by cases hne⟩
    | some d =>
      by_cases hk0 : leUint64 (entropyBlock m.r.block d) = 0
      · obtain ⟨s, hs⟩ := Read_unseeded_blocked0 host m b d hi hmu hb hc hd hk0
        rw [hs] at hr
        cases hr
      · by_cases hk1 : (leUint64 (entropyBlock m.r.block d) + 1) % 2 ^ 64 = 0
        · obtain ⟨s, hs⟩ := Read_unseeded_blocked1 host m b d hi hmu hb hc hd hk0 hk1
          rw [hs] at hr
          cases hr
        · have hEl : (entropyBlock m.r.block d).length = 64 := by
            rw [length_entropyBlock, hb]
          have hEb := entropyBlock_lt m.r.block d hbb
          have hk : leUint64 (entropyBlock m.r.block d) < 2 ^ 64 := leUint64_lt _ hEb
          have hm0 : (reader.mk true (entropyBlock m.r.block d) (entropyBlock m.r.block d)
              (leUint64 (entropyBlock m.r.block d)) false).mixed =
              blockJ (entropyBlock m.r.block d) (leUint64 (entropyBlock m.r.block d)) :=
            mixed_eq _ hEl hEl hk
          have hm1 : (reader.mk true
              (blockJ (entropyBlock m.r.block d) (leUint64 (entropyBlock m.r.block d)))
              (entropyBlock m.r.block d)
              ((leUint64 (entropyBlock m.r.block d) + 1) % 2 ^ 64) true).mixed =
              blockJ (entropyBlock m.r.block d)
                ((leUint64 (entropyBlock m.r.block d) + 1) % 2 ^ 64) :=
            mixed_eq _ (length_blockJ _ _ hEl) hEl (Nat.mod_lt _ (by norm_num))
          rw [Read_unseeded host m b d hi hmu hb hc hd hk0 hk1, hm0, hm1] at hr
          injection hr with hr
          injection hr with h1 h2
          injection h2 with h2 h3
          injection h3 with h3 h4
          subst h1 h2 h3 h4
          refine ⟨⟨rfl, ⟨length_blockJ _ _ hEl, hEl, Nat.mod_lt _ (by norm_num),
            blockJ_lt _ _ hEb, hEb⟩, fun _ => Or.inl ?_⟩,
            fun _ => ⟨_, ?_, ?_, rfl, rfl⟩⟩
          · simp only []
            have e : (((leUint64 (entropyBlock m.r.block d) + 1) % 2 ^ 64 + 1) % 2 ^ 64 +
                (2 ^ 64 - 1)) % 2 ^ 64 = (leUint64 (entropyBlock m.r.block d) + 1) % 2 ^ 64 := by
              omega
            rw [e]
          · rw [snapshot_unseeded host m d hi hmu hb hc hd hk0, hm0]
          · simp only []
            intro hEq
            have := blockJ_inj _ _ _ hEl (Nat.mod_lt _ (by norm_num)) hk hEq
            omega

/-- Every state between calls satisfies the invariant. -/
theorem Inv_of_Reachable (host : Host) (m : Machine) (h : Reachable host m) : Inv m := by
  induction h with
  | init => exact Inv_newReader
  | read m b m1 out n e _ hr ih => exact (Read_step host m b m1 out n e ih hr).1
  | reseed m m1 e _ hr ih => exact Inv_Reseed host m m1 e ih hr

/- ## The claims -/

theorem getElem?_flatMap_chunks (F : Nat → List Nat) (hF : ∀ j, (F j).length = 64) (k : Nat) :
    ∀ t i, i < 64 * k → ((List.range' t k).flatMap F)[i]? = (F (t + i / 64))[i % 64]? := by
  induction k with
  | zero => intro t i h; omega
  | succ k ih =>
    intro t i h
    rw [List.range'_succ, List.flatMap_cons]
    by_cases hi : i < 64
    · rw [List.getElem?_append_left (by rw [hF]; exact hi), Nat.div_eq_of_lt hi,
        Nat.mod_eq_of_lt hi, Nat.add_zero]
    · rw [List.getElem?_append_right (by rw [hF]; omega), hF, ih (t + 1) (i - 64) (by omega)]
      have e1 : t + 1 + (i - 64) / 64 = t + i / 64 := by omega
      have e2 : (i - 64) % 64 = i % 64 := by omega
      rw [e1, e2]

/-- Byte i of the output stream is byte i mod 64 of the digest of block number i / 64. -/
theorem getElem?_outStream (v0 : List Nat) (n i : Nat) (h : i < n) :
    (outStream v0 n)[i]? = (sha512 (blockJ v0 (i / 64)))[i % 64]? := by
  rw [outStream, List.getElem?_take_of_lt h, List.range_eq_range',
    getElem?_flatMap_chunks _ (fun j => length_sha512 _) _ 0 i (by omega), Nat.zero_add]

theorem drop_blockJ (v0 : List Nat) (j : Nat) (h : 8 ≤ v0.length) :
    (blockJ v0 j).drop 8 = v0.drop 8 := by
  rw [blockJ, List.drop_left']
  simp only [List.length_zipWith, List.length_take, List.length_map, List.length_range]
  omega

/-- What Read does on a seeded generator: the snapshot v0 is the block at entry; with a
counter that is not zero the call returns (n, nil) and the buffer holds the first n bytes of
Hash(block_0) ‖ Hash(block_1) ‖ ..., byte i being byte i mod 64 of the digest of block i / 64,
where block_j is v0 with its first 8 bytes XORed with the little-endian bytes of j and bytes
8..63 unchanged; with a zero counter the call is stuck before the output loop. -/
theorem Read_seeded_stream (host : Host) (m : Machine) (b : List Nat)
    (hi : m.r.initialized = true) (hmu : m.r.mu = false) (hb : m.r.block.length = 64) :
    reader.snapshot host m = some m.r.block ∧
    ((m.r.ctr ≠ 0 ∧ ∃ m1, reader.Read host m b =
        Outcome.ret (m1, outStream m.r.block b.length, (b.length : Int), none)) ∨
     (m.r.ctr = 0 ∧ ∃ s, reader.Read host m b = Outcome.blocked s)) ∧
    (outStream m.r.block b.length).length = b.length ∧
    (∀ i, i < b.length →
      (outStream m.r.block b.length)[i]? = (sha512 (blockJ m.r.block (i / 64)))[i % 64]?) ∧
    (∀ j, (blockJ m.r.block j).drop 8 = m.r.block.drop 8) := by
  refine ⟨snapshot_seeded host m hi hmu hb, ?_, length_outStream _ _,
    fun i h => getElem?_outStream _ _ i h, fun j => drop_blockJ _ j (by omega)⟩
  by_cases h0 : m.r.ctr = 0
  · exact Or.inr ⟨h0, _, Read_seeded_blocked host m b hi hmu h0⟩
  · exact Or.inl ⟨h0, _, Read_seeded host m b hi hmu hb h0⟩

/-- C1 (code defect): a seeded state on which Read writes none of the bytes the claim
describes. The state seededZero (initialized, counter 0) is reached by one Read under
hostFE; its snapshot v0 is its block and the claim asks for the 65 bytes of
Hash(block_0) ‖ Hash(block_1) in a 65-byte buffer, but the call is stuck in the Lock of the
Reseed that update calls, before the output loop, and no byte is written. -/
theorem C1_seeded_read_writes_no_stream :
    Reachable hostFE seededZero ∧ seededZero.r.initialized = true ∧
    reader.snapshot hostFE seededZero = some seededZero.r.block ∧
    (outStream seededZero.r.block 65).length = 65 ∧
    reader.Read hostFE seededZero (zeros 65) = Outcome.blocked stuckZero := by
  refine ⟨?_, rfl, by decide!, length_outStream _ _, by decide!⟩
  have h : reader.Read hostFE newReader (zeros 1) =
      Outcome.ret (seededZero, [123], 1, none) := by decide!
  exact Reachable.read _ _ _ _ _ _ Reachable.init h

/-- C2 (code defect): a seeded state is reached in which Read does not return. Under the
entropy source hostFE the first Read of the package seeds the generator, returns (1, nil)
and leaves counter 0; the next Read, through reader.Read or through the package-level Read,
is stuck forever in the Lock of the Reseed that update calls while Read holds the mutex. -/
theorem C2_read_stuck_on_seeded_state :
    reader.Read hostFE newReader (zeros 1) = Outcome.ret (seededZero, [123], 1, none) ∧
    seededZero.r.initialized = true ∧
    reader.Read hostFE seededZero (zeros 1) = Outcome.blocked stuckZero ∧
    Read hostFE seededZero (zeros 1) = Outcome.blocked stuckZero := by
  refine ⟨?_, ?_, ?_, ?_⟩ <;> decide!

/-- C3 (code defect): the second of two successive successful Read calls recomputes a chunk
of the first. From the fresh Reader under hostTwo, Read of 128 bytes returns digestA ‖ digestB
and the following Read of 64 bytes returns digestB again: block_1 of the first call and
block_0 of the second call are the same hash input. -/
theorem C3_second_read_repeats_first_output :
    reader.Read hostTwo newReader (zeros 128) =
      Outcome.ret (afterFirstTwo, digestA ++ digestB, 128, none) ∧
    reader.Read hostTwo afterFirstTwo (zeros 64) =
      Outcome.ret (afterSecondTwo, digestB, 64, none) ∧
    reader.snapshot hostTwo newReader = some (zeros 64) ∧
    reader.snapshot hostTwo afterFirstTwo = some (1 :: zeros 63) ∧
    blockJ (zeros 64) 1 = blockJ (1 :: zeros 63) 0 := by
  refine ⟨?_, ?_, ?_, ?_, ?_⟩ <;> decide!

/-- C4: in every state reachable from the fresh Reader by Read and Reseed calls, a Read
that returns without error leaves a block different from the snapshot v0 it took: the update
inside the call changed V. -/
theorem C4_update_changes_block (host : Host) (m : Machine) (hreach : Reachable host m)
    (b : List Nat) (m1 : Machine) (out : List Nat) (n : Int)
    (hr : reader.Read host m b = Outcome.ret (m1, out, n, none)) :
    ∃ v0, reader.snapshot host m = some v0 ∧ m1.r.block ≠ v0 := by
  obtain ⟨v0, h1, h2, _⟩ :=
    (Read_step host m b m1 out n none (Inv_of_Reachable host m hreach) hr).2 rfl
  exact ⟨v0, h1, h2⟩

/-- Witness of C4: the first Read on the fresh Reader under hostTwo, with an empty buffer. -/
theorem C4_update_changes_block_witness :
    Reachable hostTwo newReader ∧
    reader.Read hostTwo newReader [] = Outcome.ret (afterFirstTwo, [], 0, none) ∧
    ∃ v0, reader.snapshot hostTwo newReader = some v0 ∧ afterFirstTwo.r.block ≠ v0 :=
  ⟨Reachable.init, by decide!,
    C4_update_changes_block hostTwo newReader Reachable.init [] afterFirstTwo [] 0 (by decide!)⟩

/-- C5 (code defect): the retry after a failed first seeding can be stuck. Under
hostFailThenZero the first Read on the fresh Reader returns (-1, error), leaves the buffer
and the whole reader unchanged (still unseeded); the following Read gets 64 zero bytes from
the entropy source, derives counter seed 0 from them, and is stuck in the Reseed that the
update inside seedIfNeeded calls. -/
theorem C5_retry_after_failed_seed_is_stuck :
    reader.Read hostFailThenZero newReader [9, 9, 9] =
      Outcome.ret (⟨newReader.r, 1⟩, [9, 9, 9], -1, some GoError.noEntropy) ∧
    reader.Read hostFailThenZero ⟨newReader.r, 1⟩ [9, 9, 9] =
      Outcome.blocked ⟨⟨true, zeros 64, zeros 64, 0, false⟩, 2⟩ := by
  refine ⟨?_, ?_⟩ <;> decide!

/-- Whenever reader.Read returns an error, the count it returns is -1 and the buffer is
the one it was given. -/
theorem Read_error_count (host : Host) (m : Machine) (b : List Nat) (m1 : Machine)
    (out : List Nat) (n : Int) (e : GoError)
    (hr : reader.Read host m b = Outcome.ret (m1, out, n, some e)) : n = -1 ∧ out = b := by
  unfold reader.Read at hr
  split at hr
  · cases hr
  · simp only at hr
    split at hr
    · cases hr
    · cases hr
    · injection hr with hr
      injection hr with h1 h2
      injection h2 with h2 h3
      injection h3 with h3 h4
      exact ⟨h3.symm, h2.symm⟩
    · split at hr
      · cases hr
      · cases hr
      · split at hr
        · cases hr
        · injection hr with hr
          injection hr with h1 h2
          injection h2 with h2 h3
          injection h3 with h3 h4
          cases h4

/-- C6 (code defect): on a failing call the count is -1, not 0. With a failing entropy
source the first Read on the fresh Reader returns (-1, error), through reader.Read and
through the package-level Read (io.ReadFull adds the -1 to its own count). -/
theorem C6_error_count_is_minus_one :
    reader.Read hostNone newReader [9, 9, 9] =
      Outcome.ret (⟨newReader.r, 1⟩, [9, 9, 9], -1, some GoError.noEntropy) ∧
    Read hostNone newReader [9, 9, 9] =
      Outcome.ret (⟨newReader.r, 1⟩, [9, 9, 9], -1, some GoError.noEntropy) := by
  refine ⟨?_, ?_⟩ <;> decide!

/-- C7 (code defect): a seeded generator on which Read does not return. The state
seededZero (initialized, counter 0) is reached by one Read under hostFEThenFail; on it
every Read, whatever the buffer, is stuck in the Lock of the Reseed that update calls. -/
theorem C7_seeded_read_is_stuck :
    Reachable hostFEThenFail seededZero ∧ seededZero.r.initialized = true ∧
    ∀ (host : Host) (b : List Nat), reader.Read host seededZero b = Outcome.blocked stuckZero := by
  refine ⟨?_, rfl, ?_⟩
  · have h : reader.Read hostFEThenFail newReader (zeros 1) =
        Outcome.ret (seededZero, [123], 1, none) := by decide!
    exact Reachable.read _ _ _ _ _ _ Reachable.init h
  · intro host b
    rw [Read_seeded_blocked host seededZero b rfl rfl rfl]
    have : seededZero.r.mixed = 0xFE :: (List.replicate 7 0xFF ++ zeros 56) := by decide!
    rw [this]
    rfl

/-- C9: when the entropy source fails during Reseed, Reseed returns the error and the
reader (V, C, counter, initialized, and the mutex, released again) is exactly what it was
before the call. -/
theorem C9_reseed_failure_leaves_state (host : Host) (m : Machine) (hmu : m.r.mu = false)
    (hf : host m.asked = none) :
    ∃ m1, reader.Reseed host m = Outcome.ret (m1, some GoError.noEntropy) ∧ m1.r = m.r :=
  ⟨⟨m.r, m.asked + 1⟩, Reseed_fail host m hmu hf, rfl⟩

/-- Witness of C9: a forced Reseed on the fresh Reader with a failing entropy source. -/
theorem C9_reseed_failure_leaves_state_witness :
    newReader.r.mu = false ∧ hostNone newReader.asked = none ∧
    ∃ m1, reader.Reseed hostNone newReader = Outcome.ret (m1, some GoError.noEntropy) ∧
      m1.r = newReader.r :=
  ⟨rfl, rfl, C9_reseed_failure_leaves_state hostNone newReader rfl rfl⟩

/-- Counterexample to C10: a forced Reseed on the fresh Reader (V_old = 64 zero bytes) with
64 zero bytes of entropy does not leave Hash(Hash(0x01 ‖ V_old) ‖ f) in V. -/
theorem C10_nested_hash_counterexample :
    ∃ m1, reader.Reseed hostZero newReader = Outcome.ret (m1, none) ∧
      m1.r.block ≠ sha512 (sha512 (0x01 :: newReader.r.block) ++ zeros 64) := by
  refine ⟨⟨⟨false, sha512 (0x01 :: (zeros 64 ++ zeros 64)), sha512 (0x01 :: (zeros 64 ++ zeros 64)),
    leUint64 (sha512 (0x01 :: (zeros 64 ++ zeros 64))), false⟩, 1⟩, ?_, ?_⟩
  · exact Reseed_ok hostZero newReader (zeros 64) rfl rfl rfl rfl rfl (by decide)
  · decide!

/-- C10 as amended: a successful Reseed with fresh entropy f sets V = Hash(0x01 ‖ V_old ‖ f),
one digest over the tag byte, the old V and the fresh bytes. -/
theorem C10_reseed_block (host : Host) (m : Machine) (f : List Nat) (hmu : m.r.mu = false)
    (hb : m.r.block.length = 64) (hc : m.r.c.length = 64) (hf : host m.asked = some f)
    (hfl : f.length = 64) (hfb : ∀ x ∈ f, x < 256) :
    ∃ m1, reader.Reseed host m = Outcome.ret (m1, none) ∧
      m1.r.block = sha512 (0x01 :: (m.r.block ++ f)) :=
  ⟨_, Reseed_ok host m f hmu hb hc hf hfl hfb, rfl⟩

/-- Witness of C10 as amended: the fresh Reader and 64 zero bytes of entropy. -/
theorem C10_reseed_block_witness :
    ∃ m1, reader.Reseed hostZero newReader = Outcome.ret (m1, none) ∧
      m1.r.block = sha512 (0x01 :: (newReader.r.block ++ zeros 64)) :=
  C10_reseed_block hostZero newReader (zeros 64) rfl rfl rfl rfl rfl (by decide)

/-- What a successful Reseed leaves: V is one digest over 0x01, the old V and the fresh
bytes; C is a copy of V and the counter is read from the first 8 bytes of V. -/
theorem Reseed_fields (host : Host) (m : Machine) (f : List Nat) (hmu : m.r.mu = false)
    (hb : m.r.block.length = 64) (hc : m.r.c.length = 64) (hf : host m.asked = some f)
    (hfl : f.length = 64) (hfb : ∀ x ∈ f, x < 256) :
    ∃ m1, reader.Reseed host m = Outcome.ret (m1, none) ∧
      m1.r.block = sha512 (0x01 :: (m.r.block ++ f)) ∧
      m1.r.c = m1.r.block ∧ m1.r.ctr = leUint64 m1.r.block ∧
      m1.r.initialized = m.r.initialized ∧ m1.r.mu = false :=
  ⟨_, Reseed_ok host m f hmu hb hc hf hfl hfb, rfl, rfl, rfl, rfl, hmu⟩

/-- C11 (code defect): after a successful Reseed C is not Hash(0x00 ‖ V) and the counter is
not read from Hash(0x04 ‖ V). A forced Reseed on the fresh Reader with 64 zero bytes of
entropy leaves C equal to the new V itself and the counter equal to the little-endian
value of the first 8 bytes of V. -/
theorem C11_reseed_derives_from_raw_block :
    ∃ m1, reader.Reseed hostZero newReader = Outcome.ret (m1, none) ∧
      m1.r.c = m1.r.block ∧ m1.r.ctr = leUint64 m1.r.block ∧
      m1.r.c ≠ sha512 (0x00 :: m1.r.block) ∧
      m1.r.ctr ≠ leUint64 (sha512 (0x04 :: m1.r.block)) := by
  obtain ⟨m1, h, hb, hc, hk, _, _⟩ :=
    Reseed_fields hostZero newReader (zeros 64) rfl rfl rfl rfl rfl (by decide)
  refine ⟨m1, h, hc, hk, ?_, ?_⟩
  · rw [hc, hb]
    decide!
  · rw [hk, hb]
    decide!

/-- C12 (code defect): update does not fold Hash(0x03 ‖ V) into V. On the state the first
Read leaves under hostTwo (V = 01 00.., C = 02 00.., counter 4) update leaves
V = 06 00.. = C XOR counter, which is not the value V XOR digest XOR C XOR counter of the
spec; C is unchanged and the counter becomes 5. -/
theorem C12_update_ignores_digest :
    reader.update hostTwo lockedFirstTwo =
      Outcome.ret ⟨⟨true, 6 :: zeros 63, 2 :: zeros 63, 5, true⟩, 1⟩ ∧
    (6 :: zeros 63) ≠ mixSpec lockedFirstTwo.r.block lockedFirstTwo.r.c lockedFirstTwo.r.ctr ∧
    lockedFirstTwo.r.ctr ≠ 0 := by
  refine ⟨?_, ?_, ?_⟩ <;> decide!

/-- C13 (code defect): seeding does not derive C and the counter through the hash. With the
entropy e = 02 00..00 (whose hashed counter seed k is not zero) a successful seedIfNeeded
leaves C = e itself, not Hash(0x00 ‖ e), and counter = 3 = (first 8 bytes of e) + 1, not
k + 1. -/
theorem C13_seed_derives_from_raw_entropy :
    reader.seedIfNeeded hostTwo lockedFresh =
      Outcome.ret (⟨⟨true, zeros 64, 2 :: zeros 63, 3, true⟩, 1⟩, none) ∧
    leUint64 (sha512 (0x04 :: (2 :: zeros 63))) ≠ 0 ∧
    (2 :: zeros 63) ≠ sha512 (0x00 :: (2 :: zeros 63)) ∧
    3 ≠ (leUint64 (sha512 (0x04 :: (2 :: zeros 63))) + 1) % 2 ^ 64 := by
  refine ⟨?_, ?_, ?_, ?_⟩ <;> decide!

/-- A Read that returns without error went through seedIfNeeded and one update, both
returning, and leaves the state of that update with the mutex released. -/
theorem Read_ret_parts (host : Host) (m : Machine) (b : List Nat) (m1 : Machine)
    (out : List Nat) (n : Int)
    (hr : reader.Read host m b = Outcome.ret (m1, out, n, none)) :
    m.r.mu = false ∧ ∃ ms mu2,
      reader.seedIfNeeded host { m with r := { m.r with mu := true } } = Outcome.ret (ms, none) ∧
      reader.update host ms = Outcome.ret mu2 ∧ m1 = mu2.unlock := by
  unfold reader.Read at hr
  split at hr
  · cases hr
  · rename_i hmu
    refine ⟨by simpa using hmu, ?_⟩
    simp only at hr
    split at hr
    · cases hr
    · cases hr
    · injection hr with hr
      injection hr with h1 h2
      injection h2 with h2 h3
      injection h3 with h3 h4
      cases h4
    · rename_i ms hs
      split at hr
      · cases hr
      · cases hr
      · rename_i mu2 hu
        split at hr
        · cases hr
        · injection hr with hr
          injection hr with h1 h2
          exact ⟨ms, mu2, hs, hu, h1.symm⟩

/-- Once seeding and update return, Read returns for every buffer, with the same state. -/
theorem Read_of_parts (host : Host) (m : Machine) (b : List Nat) (ms mu2 : Machine)
    (hmu : m.r.mu = false)
    (hs : reader.seedIfNeeded host { m with r := { m.r with mu := true } } =
      Outcome.ret (ms, none))
    (hu : reader.update host ms = Outcome.ret mu2) :
    reader.Read host m b =
      Outcome.ret (mu2.unlock, outStream (copy (zeros 64) ms.r.block) b.length,
        (b.length : Int), none) := by
  unfold reader.Read
  rw [if_neg (by simp [hmu])]
  simp only [hs, hu]
  rw [outLoop_Read _ _ (by rw [length_copy, length_zeros])]

/-- C14: a Read that returns without error changes the generator state by exactly
seedIfNeeded followed by one update (and the release of the mutex), whatever the requested
length: for every other buffer the call returns as well and leaves the same state. -/
theorem C14_read_state_is_seed_then_update (host : Host) (m : Machine) (b : List Nat)
    (m1 : Machine) (out : List Nat) (n : Int)
    (hr : reader.Read host m b = Outcome.ret (m1, out, n, none)) :
    (∃ ms mu2,
      reader.seedIfNeeded host { m with r := { m.r with mu := true } } = Outcome.ret (ms, none) ∧
      reader.update host ms = Outcome.ret mu2 ∧ m1 = mu2.unlock) ∧
    ∀ b2 : List Nat, ∃ out2,
      reader.Read host m b2 = Outcome.ret (m1, out2, (b2.length : Int), none) := by
  obtain ⟨hmu, ms, mu2, hs, hu, h1⟩ := Read_ret_parts host m b m1 out n hr
  refine ⟨⟨ms, mu2, hs, hu, h1⟩, fun b2 =>
    ⟨outStream (copy (zeros 64) ms.r.block) b2.length, ?_⟩⟩
  rw [h1]
  exact Read_of_parts host m b2 ms mu2 hmu hs hu

/-- Witness of C14: the first Read on the fresh Reader under hostTwo, empty buffer; a
128-byte buffer leaves the same state. -/
theorem C14_read_state_is_seed_then_update_witness :
    reader.Read hostTwo newReader [] = Outcome.ret (afterFirstTwo, [], 0, none) ∧
    ∃ out2, reader.Read hostTwo newReader (zeros 128) =
      Outcome.ret (afterFirstTwo, out2, ((zeros 128).length : Int), none) :=
  ⟨by decide!,
    (C14_read_state_is_seed_then_update hostTwo newReader [] afterFirstTwo [] 0
      (by decide!)).2 (zeros 128)⟩

/-- With a zero counter update runs Reseed on the mixed block and, if that returns (which
needs the mutex free, never the case inside the package), drops its error and increments
the counter Reseed left. -/
theorem update_zero_free (host : Host) (m m2 : Machine) (e : Option GoError)
    (h0 : m.r.ctr = 0)
    (hR : reader.Reseed host ⟨{ m.r with block := m.r.mixed }, m.asked⟩ = Outcome.ret (m2, e)) :
    reader.update host m =
      Outcome.ret { m2 with r := { m2.r with ctr := (m2.r.ctr + 1) % 2 ^ 64 } } := by
  obtain ⟨⟨mu, block, c, ctr, ini⟩, asked⟩ := m
  simp only at h0
  subst h0
  simp only [reader.mixed] at hR
  simp [reader.update, hR]

/-- C15 (code defect): the wraparound reseed never completes. Inside the second Read under
hostFE update finds counter 0 with the mutex held (state lockedZero); the entropy source
would answer, but update is stuck in the Lock of the Reseed it calls, asks for no entropy
and leaves no state with a new V, C and counter. Only with the mutex free, as in
seededZero, does update return the state of Reseed with its counter seed plus 1. -/
theorem C15_wraparound_reseed_is_stuck :
    lockedZero.r.ctr = 0 ∧ hostFE lockedZero.asked ≠ none ∧
    reader.update hostFE lockedZero = Outcome.blocked stuckZero ∧
    stuckZero.asked = lockedZero.asked ∧
    ∃ m2, reader.Reseed hostFE ⟨{ seededZero.r with block := seededZero.r.mixed }, 1⟩ =
        Outcome.ret (m2, none) ∧
      reader.update hostFE seededZero =
        Outcome.ret { m2 with r := { m2.r with ctr := (m2.r.ctr + 1) % 2 ^ 64 } } := by
  refine ⟨rfl, by decide, by decide!, rfl, ?_⟩
  have hm : seededZero.r.mixed = 0xFE :: (List.replicate 7 0xFF ++ zeros 56) := by decide!
  obtain ⟨m2, h2, _⟩ := Reseed_fields hostFE
    ⟨{ seededZero.r with block := seededZero.r.mixed }, 1⟩
    (0xFE :: (List.replicate 7 0xFF ++ zeros 56)) rfl (by rw [hm]; rfl) rfl rfl rfl
    (by decide)
  refine ⟨m2, h2, ?_⟩
  exact update_zero_free hostFE seededZero m2 none rfl h2

/-- C18 (code defect): Read locks the mutex it already holds. Under hostZero the first Read
on the fresh Reader seeds with 64 zero bytes, the update inside seedIfNeeded sees counter 0
and calls Reseed, and Reseed attempts Lock on the mutex Read has held since its first line:
the call is stuck in state stuckFresh and never returns. -/
theorem C18_read_locks_held_mutex :
    reader.Read hostZero newReader (zeros 1) = Outcome.blocked stuckFresh ∧
    stuckFresh.r.mu = true ∧
    reader.Reseed hostZero stuckFresh = Outcome.blocked stuckFresh ∧
    reader.update hostZero ⟨⟨true, zeros 64, zeros 64, 0, false⟩, 1⟩ =
      Outcome.blocked stuckFresh := by
  refine ⟨?_, ?_, ?_, ?_⟩ <;> decide!

/-- Reseed never writes initialized. -/
theorem Reseed_initialized (host : Host) (m m1 : Machine) (e : Option GoError)
    (h : reader.Reseed host m = Outcome.ret (m1, e)) :
    m1.r.initialized = m.r.initialized := by
  unfold reader.Reseed at h
  split at h
  · cases h
  · simp only at h
    split at h
    · injection h with h
      injection h with h1 h2
      subst h1
      rfl
    · injection h with h
      injection h with h1 h2
      subst h1
      rfl

/-- A Reseed that does not return leaves initialized as it was. -/
theorem Reseed_blocked_initialized (host : Host) (m s : Machine)
    (h : reader.Reseed host m = Outcome.blocked s) : s.r.initialized = m.r.initialized := by
  unfold reader.Reseed at h
  split at h
  · injection h with h
    subst h
    rfl
  · simp only at h
    split at h <;> cases h

/-- With a zero counter, an update whose Reseed does not return does not return. -/
theorem update_zero_blocked (host : Host) (m s : Machine) (h0 : m.r.ctr = 0)
    (hR : reader.Reseed host ⟨{ m.r with block := m.r.mixed }, m.asked⟩ = Outcome.blocked s) :
    reader.update host m = Outcome.blocked s := by
  obtain ⟨⟨mu, block, c, ctr, ini⟩, asked⟩ := m
  simp only at h0
  subst h0
  simp only [reader.mixed] at hR
  simp [reader.update, hR]

/-- Reseed has no loop: it never runs out of fuel. -/
theorem Reseed_ne_spin (host : Host) (m : Machine) : reader.Reseed host m ≠ Outcome.spin := by
  unfold reader.Reseed
  split
  · intro h; cases h
  · simp only
    split <;> intro h <;> cases h

/-- Method update never writes initialized. -/
theorem update_initialized (host : Host) (m m1 : Machine)
    (h : reader.update host m = Outcome.ret m1) : m1.r.initialized = m.r.initialized := by
  by_cases h0 : m.r.ctr = 0
  · cases hR : reader.Reseed host ⟨{ m.r with block := m.r.mixed }, m.asked⟩ with
    | ret v =>
      obtain ⟨m2, e⟩ := v
      rw [update_zero_free host m m2 e h0 hR] at h
      injection h with h
      subst h
      have h3 := Reseed_initialized host _ m2 e hR
      simp only at h3 ⊢
      exact h3
    | blocked s =>
      rw [update_zero_blocked host m s h0 hR] at h
      cases h
    | spin => exact absurd hR (Reseed_ne_spin host _)
  · rw [update_ret host m h0] at h
    injection h with h
    subst h
    simp only

/-- An update that does not return leaves initialized as it was. -/
theorem update_blocked_initialized (host : Host) (m s : Machine)
    (h : reader.update host m = Outcome.blocked s) : s.r.initialized = m.r.initialized := by
  by_cases h0 : m.r.ctr = 0
  · cases hR : reader.Reseed host ⟨{ m.r with block := m.r.mixed }, m.asked⟩ with
    | ret v =>
      obtain ⟨m2, e⟩ := v
      rw [update_zero_free host m m2 e h0 hR] at h
      cases h
    | blocked s2 =>
      rw [update_zero_blocked host m s2 h0 hR] at h
      injection h with h
      subst h
      have h3 := Reseed_blocked_initialized host _ s2 hR
      simp only at h3 ⊢
      exact h3
    | spin => exact absurd hR (Reseed_ne_spin host _)
  · rw [update_ret host m h0] at h
    cases h

/-- What a returning seedIfNeeded does to initialized: a seeded reader is left as it is and
no entropy is requested; an unseeded one becomes initialized exactly when the call succeeds,
which needs the entropy request answered and update returned. -/
theorem seed_initialized (host : Host) (m m1 : Machine) (e : Option GoError)
    (h : reader.seedIfNeeded host m = Outcome.ret (m1, e)) :
    (m.r.initialized = true → m1 = m ∧ e = none) ∧
    (m.r.initialized = false →
      (e = none → m1.r.initialized = true ∧ host m.asked ≠ none) ∧
      (e ≠ none → m1.r.initialized = false ∧ host m.asked = none)) := by
  unfold reader.seedIfNeeded at h
  split at h
  · rename_i hi
    injection h with h
    injection h with h1 h2
    exact ⟨fun _ => ⟨h1.symm, h2.symm⟩, fun hf => by rw [hf] at hi; cases hi⟩
  · rename_i hi
    refine ⟨fun ht => absurd ht hi, fun hf => ?_⟩
    simp only [getRandom] at h
    cases hd : host m.asked with
    | none =>
      rw [hd] at h
      simp only at h
      injection h with h
      injection h with h1 h2
      subst h1 h2
      exact ⟨fun hn => (by cases hn), fun _ => ⟨hf, rfl⟩⟩
    | some d =>
      rw [hd] at h
      simp only at h
      split at h
      · injection h with h
        injection h with h1 h2
        subst h1 h2
        exact ⟨fun _ => ⟨rfl, (by simp)⟩, fun hn => absurd rfl hn⟩
      · cases h
      · cases h

/-- C16: on a seeded reader seedIfNeeded returns nil, requests no entropy and leaves the
whole state unchanged; and after a seedIfNeeded that succeeded, on any state, a second
seedIfNeeded returns nil and leaves the state of the first. -/
theorem C16_seedIfNeeded_idempotent (host : Host) (m : Machine) :
    (m.r.initialized = true → reader.seedIfNeeded host m = Outcome.ret (m, none)) ∧
    (∀ m1, reader.seedIfNeeded host m = Outcome.ret (m1, none) →
      m1.r.initialized = true ∧ reader.seedIfNeeded host m1 = Outcome.ret (m1, none)) := by
  refine ⟨fun hi => seed_done host m hi, fun m1 h => ?_⟩
  have hi1 : m1.r.initialized = true := by
    cases hi : m.r.initialized with
    | true =>
      have := ((seed_initialized host m m1 none h).1 hi).1
      rw [this, hi]
    | false => exact (((seed_initialized host m m1 none h).2 hi).1 rfl).1
  exact ⟨hi1, seed_done host m1 hi1⟩

/-- Witness of C16: the fresh reader under hostTwo with the mutex held; the first
seedIfNeeded seeds it, the second changes nothing. -/
theorem C16_seedIfNeeded_idempotent_witness :
    reader.seedIfNeeded hostTwo lockedFresh =
      Outcome.ret (⟨⟨true, zeros 64, 2 :: zeros 63, 3, true⟩, 1⟩, none) ∧
    reader.seedIfNeeded hostTwo ⟨⟨true, zeros 64, 2 :: zeros 63, 3, true⟩, 1⟩ =
      Outcome.ret (⟨⟨true, zeros 64, 2 :: zeros 63, 3, true⟩, 1⟩, none) :=
  ⟨by decide!,
    ((C16_seedIfNeeded_idempotent hostTwo lockedFresh).2
      ⟨⟨true, zeros 64, 2 :: zeros 63, 3, true⟩, 1⟩ (by decide!)).2⟩

/-- Method update has no loop of unknown length: it never runs out of fuel. -/
theorem update_ne_spin (host : Host) (m : Machine) : reader.update host m ≠ Outcome.spin := by
  intro h
  by_cases h0 : m.r.ctr = 0
  · cases hR : reader.Reseed host ⟨{ m.r with block := m.r.mixed }, m.asked⟩ with
    | ret v =>
      obtain ⟨m2, e⟩ := v
      rw [update_zero_free host m m2 e h0 hR] at h
      cases h
    | blocked s =>
      rw [update_zero_blocked host m s h0 hR] at h
      cases h
    | spin => exact absurd hR (Reseed_ne_spin host _)
  · rw [update_ret host m h0] at h
    cases h

/-- A seedIfNeeded that does not return was seeding an unseeded reader, and the state it
is stuck in is still unseeded. -/
theorem seed_blocked_initialized (host : Host) (m s : Machine)
    (h : reader.seedIfNeeded host m = Outcome.blocked s) :
    m.r.initialized = false ∧ s.r.initialized = false := by
  unfold reader.seedIfNeeded at h
  split at h
  · cases h
  · rename_i hi
    have hf : m.r.initialized = false := by simpa using hi
    refine ⟨hf, ?_⟩
    simp only [getRandom] at h
    cases hd : host m.asked with
    | none =>
      rw [hd] at h
      cases h
    | some d =>
      rw [hd] at h
      simp only at h
      split at h
      · cases h
      · rename_i s2 hu
        injection h with h
        subst h
        have h3 := update_blocked_initialized host _ s2 hu
        simp only at h3
        rw [h3, hf]
      · cases h

/-- Method seedIfNeeded never runs out of fuel. -/
theorem seed_ne_spin (host : Host) (m : Machine) :
    reader.seedIfNeeded host m ≠ Outcome.spin := by
  intro h
  unfold reader.seedIfNeeded at h
  split at h
  · cases h
  · simp only [getRandom] at h
    cases hd : host m.asked with
    | none =>
      rw [hd] at h
      cases h
    | some d =>
      rw [hd] at h
      simp only at h
      split at h
      · cases h
      · cases h
      · rename_i hu
        exact update_ne_spin host _ hu

/-- A Read that returns an error failed in seedIfNeeded and leaves the state of that call
with the mutex released. -/
theorem Read_err_parts (host : Host) (m : Machine) (b : List Nat) (m1 : Machine)
    (out : List Nat) (n : Int) (e : GoError)
    (hr : reader.Read host m b = Outcome.ret (m1, out, n, some e)) :
    ∃ ms, reader.seedIfNeeded host { m with r := { m.r with mu := true } } =
      Outcome.ret (ms, some e) ∧ m1 = ms.unlock := by
  unfold reader.Read at hr
  split at hr
  · cases hr
  · simp only at hr
    split at hr
    · cases hr
    · cases hr
    · rename_i ms e2 hs
      injection hr with hr
      injection hr with h1 h2
      injection h2 with h2 h3
      injection h3 with h3 h4
      injection h4 with h4
      subst h4
      exact ⟨ms, hs, h1.symm⟩
    · split at hr
      · cases hr
      · cases hr
      · split at hr
        · cases hr
        · injection hr with hr
          injection hr with h1 h2
          injection h2 with h2 h3
          injection h3 with h3 h4
          cases h4

/-- A Read that does not return is stuck at its own Lock, inside seedIfNeeded, or inside
update after a successful seedIfNeeded. -/
theorem Read_blocked_parts (host : Host) (m : Machine) (b : List Nat) (s : Machine)
    (hr : reader.Read host m b = Outcome.blocked s) :
    (m.r.mu = true ∧ s = m) ∨
    reader.seedIfNeeded host { m with r := { m.r with mu := true } } = Outcome.blocked s ∨
    ∃ ms, reader.seedIfNeeded host { m with r := { m.r with mu := true } } =
        Outcome.ret (ms, none) ∧ reader.update host ms = Outcome.blocked s := by
  unfold reader.Read at hr
  split at hr
  · rename_i hmu
    injection hr with hr
    exact Or.inl ⟨hmu, hr.symm⟩
  · simp only at hr
    split at hr
    · rename_i s2 hs
      injection hr with hr
      subst hr
      exact Or.inr (Or.inl hs)
    · cases hr
    · cases hr
    · rename_i ms hs
      split at hr
      · rename_i s2 hu
        injection hr with hr
        subst hr
        exact Or.inr (Or.inr ⟨ms, hs, hu⟩)
      · cases hr
      · split at hr <;> cases hr

/-- A seedIfNeeded that seeds an unseeded reader ran update to its end before it set
initialized. -/
theorem seed_ran_update (host : Host) (m m1 : Machine)
    (hi : m.r.initialized = false)
    (h : reader.seedIfNeeded host m = Outcome.ret (m1, none)) :
    ∃ mp m2, mp.r.initialized = false ∧ mp.asked = m.asked + 1 ∧
      reader.update host mp = Outcome.ret m2 ∧
      m1 = { m2 with r := { m2.r with initialized := true } } := by
  unfold reader.seedIfNeeded at h
  split at h
  · rename_i ht
    rw [hi] at ht
    cases ht
  · simp only [getRandom] at h
    cases hd : host m.asked with
    | none =>
      rw [hd] at h
      simp only at h
      injection h with h
      injection h with h1 h2
      cases h2
    | some d =>
      rw [hd] at h
      simp only at h
      split at h
      · rename_i m2 hu
        injection h with h
        injection h with h1 h2
        refine ⟨_, m2, ?_, ?_, hu, h1.symm⟩
        · simp only
          exact hi
        · simp only
      · cases h
      · cases h

/-- After a seedIfNeeded that returned nil the reader is seeded. -/
theorem seed_ret_initialized (host : Host) (m m1 : Machine)
    (h : reader.seedIfNeeded host m = Outcome.ret (m1, none)) : m1.r.initialized = true := by
  cases hi : m.r.initialized with
  | true =>
    have := ((seed_initialized host m m1 none h).1 hi).1
    rw [this, hi]
  | false => exact (((seed_initialized host m m1 none h).2 hi).1 rfl).1

/-- What a returning Read does to initialized. -/
theorem Read_initialized (host : Host) (m : Machine) (b : List Nat) (m1 : Machine)
    (out : List Nat) (n : Int) (e : Option GoError)
    (h : reader.Read host m b = Outcome.ret (m1, out, n, e)) :
    (e = none → m1.r.initialized = true) ∧
    (e ≠ none → m.r.initialized = false ∧ m1.r.initialized = false) := by
  cases e with
  | none =>
    refine ⟨fun _ => ?_, fun hn => absurd rfl hn⟩
    obtain ⟨_, ms, mu2, hs, hu, h1⟩ := Read_ret_parts host m b m1 out n h
    have h2 := update_initialized host ms mu2 hu
    have h3 := seed_ret_initialized host _ ms hs
    rw [h1]
    simp only [Machine.unlock]
    rw [h2, h3]
  | some e1 =>
    refine ⟨fun hn => (by cases hn), fun _ => ?_⟩
    obtain ⟨ms, hs, h1⟩ := Read_err_parts host m b m1 out n e1 h
    have h2 := seed_initialized host _ ms (some e1) hs
    simp only at h2
    cases hi : m.r.initialized with
    | true =>
      have := (h2.1 hi).2
      cases this
    | false =>
      have h4 := ((h2.2 hi).2 (by simp)).1
      refine ⟨rfl, ?_⟩
      rw [h1]
      simp only [Machine.unlock]
      exact h4

/-- A Read that never returns on a seeded reader is stuck in a seeded state. -/
theorem Read_blocked_initialized (host : Host) (m : Machine) (b : List Nat) (s : Machine)
    (h : reader.Read host m b = Outcome.blocked s) (hi : m.r.initialized = true) :
    s.r.initialized = true := by
  rcases Read_blocked_parts host m b s h with ⟨_, h1⟩ | h1 | ⟨ms, hs, hu⟩
  · rw [h1, hi]
  · have := (seed_blocked_initialized host _ s h1).1
    simp only at this
    rw [hi] at this
    cases this
  · rw [update_blocked_initialized host ms s hu]
    exact seed_ret_initialized host _ ms hs

/-- C17: initialized is false in the fresh reader, is never written by Reseed or update,
is set by seedIfNeeded only when that call returns nil after the entropy request was
answered and update returned, and once true stays true through every Read, Reseed, update
and seedIfNeeded, whether the call returns, fails or never returns. -/
theorem C17_initialized_set_once :
    newReader.r.initialized = false ∧
    (∀ host m m1 e, reader.Reseed host m = Outcome.ret (m1, e) →
      m1.r.initialized = m.r.initialized) ∧
    (∀ host m s, reader.Reseed host m = Outcome.blocked s →
      s.r.initialized = m.r.initialized) ∧
    (∀ host m m1, reader.update host m = Outcome.ret m1 →
      m1.r.initialized = m.r.initialized) ∧
    (∀ host m s, reader.update host m = Outcome.blocked s →
      s.r.initialized = m.r.initialized) ∧
    (∀ host m m1 e, reader.seedIfNeeded host m = Outcome.ret (m1, e) →
      (m.r.initialized = true → m1 = m) ∧
      (m.r.initialized = false → m1.r.initialized = true →
        e = none ∧ host m.asked ≠ none ∧
        ∃ mp m2, mp.r.initialized = false ∧ reader.update host mp = Outcome.ret m2 ∧
          m1 = { m2 with r := { m2.r with initialized := true } })) ∧
    (∀ host m s, reader.seedIfNeeded host m = Outcome.blocked s →
      m.r.initialized = false ∧ s.r.initialized = false) ∧
    (∀ host m b m1 out n e, reader.Read host m b = Outcome.ret (m1, out, n, e) →
      (m.r.initialized = true → m1.r.initialized = true) ∧
      (m1.r.initialized = true → e = none)) ∧
    (∀ host m b s, reader.Read host m b = Outcome.blocked s →
      m.r.initialized = true → s.r.initialized = true) := by
  refine ⟨rfl, Reseed_initialized, Reseed_blocked_initialized, update_initialized,
    update_blocked_initialized, ?_, seed_blocked_initialized, ?_, ?_⟩
  · intro host m m1 e h
    refine ⟨fun hi => ((seed_initialized host m m1 e h).1 hi).1, fun hi h1 => ?_⟩
    have h2 := (seed_initialized host m m1 e h).2 hi
    cases e with
    | none =>
      obtain ⟨mp, m2, hp, _, hu, hm⟩ := seed_ran_update host m m1 hi h
      exact ⟨rfl, (h2.1 rfl).2, mp, m2, hp, hu, hm⟩
    | some e1 =>
      have := (h2.2 (by simp)).1
      rw [h1] at this
      cases this
  · intro host m b m1 out n e h
    have h2 := Read_initialized host m b m1 out n e h
    refine ⟨fun hi => ?_, fun h1 => ?_⟩
    · cases e with
      | none => exact h2.1 rfl
      | some e1 =>
        have := (h2.2 (by simp)).1
        rw [hi] at this
        cases this
    · cases e with
      | none => rfl
      | some e1 =>
        have := (h2.2 (by simp)).2
        rw [h1] at this
        cases this
  · intro host m b s h hi
    exact Read_blocked_initialized host m b s h hi

theorem getD_blockJ (v0 : List Nat) (j k : Nat) (hk : k < v0.length) :
    (blockJ v0 j).getD k 0 = if k < 8 then v0.getD k 0 ^^^ leByte j k else v0.getD k 0 := by
  rw [List.getD_eq_getElem?_getD, List.getD_eq_getElem?_getD, getElem?_blockJ,
    List.getElem?_eq_getElem hk]
  by_cases h8 : k < 8
  · simp [h8]
  · simp [h8]

/-- C19: the block update leaves does not depend on the block it was given. Two well-formed
readers with the same C and the same non-zero counter, whatever their V, are both left with
V = C with the counter bytes XORed into bytes 0..7 and bytes 8..63 equal to those of C. -/
theorem C19_update_forgets_block (host : Host) (m m2 : Machine)
    (hb : m.r.block.length = 64) (hb2 : m2.r.block.length = 64) (hc : m.r.c.length = 64)
    (hctr : m.r.ctr < 2 ^ 64) (h0 : m.r.ctr ≠ 0)
    (hsc : m2.r.c = m.r.c) (hsk : m2.r.ctr = m.r.ctr) :
    ∃ m1 m3, reader.update host m = Outcome.ret m1 ∧ reader.update host m2 = Outcome.ret m3 ∧
      m1.r.block = m3.r.block ∧
      (∀ i, i < 8 → m1.r.block.getD i 0 = m.r.c.getD i 0 ^^^ leByte m.r.ctr i) ∧
      (∀ i, 8 ≤ i → i < 64 → m1.r.block.getD i 0 = m.r.c.getD i 0) := by
  have e1 : m.r.mixed = blockJ m.r.c m.r.ctr := mixed_eq m.r hb hc hctr
  have e2 : m2.r.mixed = blockJ m.r.c m.r.ctr := by
    rw [mixed_eq m2.r hb2 (by rw [hsc, hc]) (by rw [hsk]; exact hctr), hsc, hsk]
  refine ⟨_, _, update_ret host m h0, update_ret host m2 (by rw [hsk]; exact h0), ?_, ?_, ?_⟩
  · simp only
    rw [e1, e2]
  · intro i hi
    simp only
    rw [e1, getD_blockJ _ _ _ (by omega), if_pos hi]
  · intro i h8 h64
    simp only
    rw [e1, getD_blockJ _ _ _ (by omega), if_neg (by omega)]

/-- Witness of C19: the states lockedFirstTwo (V = 01 00..) and the same reader with
V = 64 zero bytes, both with C = 02 00.. and counter 4. -/
theorem C19_update_forgets_block_witness :
    ∃ m1 m3, reader.update hostTwo lockedFirstTwo = Outcome.ret m1 ∧
      reader.update hostTwo ⟨⟨true, zeros 64, 2 :: zeros 63, 4, true⟩, 1⟩ = Outcome.ret m3 ∧
      m1.r.block = m3.r.block ∧
      (∀ i, i < 8 → m1.r.block.getD i 0 =
        lockedFirstTwo.r.c.getD i 0 ^^^ leByte lockedFirstTwo.r.ctr i) ∧
      (∀ i, 8 ≤ i → i < 64 → m1.r.block.getD i 0 = lockedFirstTwo.r.c.getD i 0) :=
  C19_update_forgets_block hostTwo lockedFirstTwo
    ⟨⟨true, zeros 64, 2 :: zeros 63, 4, true⟩, 1⟩ rfl rfl rfl (by decide) (by decide) rfl rfl

/-- In every state between calls bytes 8..63 of V are those of C. -/
theorem Reachable_tail (host : Host) (m : Machine) (h : Reachable host m) :
    m.r.block.drop 8 = m.r.c.drop 8 := by
  induction h with
  | init => rfl
  | read m b m1 out n e hm hr ih =>
    have hI := Inv_of_Reachable host m hm
    have hI1 := (Read_step host m b m1 out n e hI hr).1
    cases hi1 : m1.r.initialized with
    | true =>
      rcases hI1.2.2 hi1 with hv | hv
      · rw [hv, drop_blockJ _ _ (by rw [hI1.2.1.2.1]; norm_num)]
      · rw [hv]
    | false =>
      cases e with
      | none =>
        have := (Read_initialized host m b m1 out n none hr).1 rfl
        rw [hi1] at this
        cases this
      | some e1 =>
        have hi := ((Read_initialized host m b m1 out n (some e1) hr).2 (by simp)).1
        obtain ⟨ms, hs, h1⟩ := Read_err_parts host m b m1 out n e1 hr
        have hf := (((seed_initialized host _ ms (some e1) hs).2 hi).2 (by simp)).2
        rw [seed_fail host ⟨{ m.r with mu := true }, m.asked⟩ hi hf] at hs
        injection hs with hs
        injection hs with h2 h3
        rw [h1, ← h2]
        exact ih
  | reseed m m1 e hm hr ih =>
    obtain ⟨hmu, ⟨hb, hc, _, _, _⟩, _⟩ := Inv_of_Reachable host m hm
    cases hd : host m.asked with
    | none =>
      rw [Reseed_fail host m hmu hd] at hr
      injection hr with hr
      injection hr with h1 h2
      rw [← h1]
      exact ih
    | some d =>
      rw [Reseed_some host m d hmu hb hc hd] at hr
      injection hr with hr
      injection hr with h1 h2
      rw [← h1]

/-- C20: in every state reachable from the fresh Reader by Read and Reseed calls, whatever
the entropy source answers, bytes 8..63 of V equal bytes 8..63 of C. -/
theorem C20_block_tail_equals_c (host : Host) (m : Machine) (h : Reachable host m) :
    m.r.block.length = 64 ∧ m.r.c.length = 64 ∧
    ∀ i, 8 ≤ i → i < 64 → m.r.block.getD i 0 = m.r.c.getD i 0 := by
  obtain ⟨_, ⟨hb, hc, _, _, _⟩, _⟩ := Inv_of_Reachable host m h
  refine ⟨hb, hc, fun i h8 _ => ?_⟩
  have ht := Reachable_tail host m h
  have e : ∀ l : List Nat, l.getD i 0 = (l.drop 8).getD (i - 8) 0 := by
    intro l
    rw [List.getD_eq_getElem?_getD, List.getD_eq_getElem?_getD, List.getElem?_drop]
    congr 2
    omega
  rw [e m.r.block, e m.r.c, ht]

/-- Witness of C20: the state the first Read leaves under hostTwo. -/
theorem C20_block_tail_equals_c_witness :
    Reachable hostTwo afterFirstTwo ∧
    ∀ i, 8 ≤ i → i < 64 → afterFirstTwo.r.block.getD i 0 = afterFirstTwo.r.c.getD i 0 :=
  have hr : Reachable hostTwo afterFirstTwo :=
    Reachable.read newReader [] afterFirstTwo [] 0 none Reachable.init (by decide!)
  ⟨hr, (C20_block_tail_equals_c hostTwo afterFirstTwo hr).2.2⟩

/-- An update that returns under a held mutex saw a counter that is not zero and leaves
the mutex held. -/
theorem update_ret_mu (host : Host) (m m1 : Machine)
    (h : reader.update host m = Outcome.ret m1) (hmu : m.r.mu = true) :
    m.r.ctr ≠ 0 ∧ m1.r.mu = true := by
  by_cases h0 : m.r.ctr = 0
  · rw [update_blocked host m h0 hmu] at h
    cases h
  · rw [update_ret host m h0] at h
    injection h with h
    subst h
    exact ⟨h0, hmu⟩

/-- A seedIfNeeded that returns nil under a held mutex leaves the mutex held. -/
theorem seed_ret_mu (host : Host) (m ms : Machine)
    (h : reader.seedIfNeeded host m = Outcome.ret (ms, none)) (hmu : m.r.mu = true) :
    ms.r.mu = true := by
  unfold reader.seedIfNeeded at h
  split at h
  · injection h with h
    injection h with h1 h2
    rw [← h1]
    exact hmu
  · simp only [getRandom] at h
    cases hd : host m.asked with
    | none =>
      rw [hd] at h
      simp only at h
      injection h with h
      injection h with h1 h2
      cases h2
    | some d =>
      rw [hd] at h
      simp only at h
      split at h
      · rename_i m2 hu
        injection h with h
        injection h with h1 h2
        have h3 := (update_ret_mu host _ m2 hu (by simp only; exact hmu)).2
        rw [← h1]
        simp only
        exact h3
      · cases h
      · cases h

/-- C8: an entropy failure during a reseed surfaces unchanged. A forced Reseed (mutex free)
whose entropy request fails returns that error. Inside a Read, whenever the automatic Reseed
that update invokes with counter 0 returns an error, Read returns it; that condition never
arises, because this Reseed finds the mutex held by Read, makes no entropy request and never
returns (third and fourth conjunct). -/
theorem C8_reseed_failure_surfaces (host : Host) (m : Machine) (hmu : m.r.mu = false) :
    (host m.asked = none →
      reader.Reseed host m = Outcome.ret (⟨m.r, m.asked + 1⟩, some GoError.noEntropy)) ∧
    (∀ (b : List Nat) (ms m2 : Machine) (e : GoError),
      reader.seedIfNeeded host { m with r := { m.r with mu := true } } =
        Outcome.ret (ms, none) →
      ms.r.ctr = 0 →
      reader.Reseed host ⟨{ ms.r with block := ms.r.mixed }, ms.asked⟩ =
        Outcome.ret (m2, some e) →
      ∃ m1 out n, reader.Read host m b = Outcome.ret (m1, out, n, some e)) ∧
    (∀ ms : Machine,
      reader.seedIfNeeded host { m with r := { m.r with mu := true } } =
        Outcome.ret (ms, none) →
      reader.Reseed host ⟨{ ms.r with block := ms.r.mixed }, ms.asked⟩ =
        Outcome.blocked ⟨{ ms.r with block := ms.r.mixed }, ms.asked⟩) ∧
    (∀ mp : Machine, mp.r.mu = true → reader.Reseed host mp = Outcome.blocked mp) := by
  have h3 : ∀ ms : Machine,
      reader.seedIfNeeded host { m with r := { m.r with mu := true } } =
        Outcome.ret (ms, none) →
      reader.Reseed host ⟨{ ms.r with block := ms.r.mixed }, ms.asked⟩ =
        Outcome.blocked ⟨{ ms.r with block := ms.r.mixed }, ms.asked⟩ := by
    intro ms hs
    have hm := seed_ret_mu host _ ms hs rfl
    exact Reseed_blocked host _ (by simp only; exact hm)
  refine ⟨fun hf => Reseed_fail host m hmu hf, ?_, h3, fun mp h => Reseed_blocked host mp h⟩
  intro b ms m2 e hs _ hR
  rw [h3 ms hs] at hR
  cases hR

/-- Witness of C8: a forced Reseed on the seeded state seededZero under hostFEThenFail,
whose second request fails. -/
theorem C8_reseed_failure_surfaces_witness :
    seededZero.r.mu = false ∧ hostFEThenFail seededZero.asked = none ∧
    reader.Reseed hostFEThenFail seededZero =
      Outcome.ret (⟨seededZero.r, seededZero.asked + 1⟩, some GoError.noEntropy) :=
  ⟨rfl, rfl, (C8_reseed_failure_surfaces hostFEThenFail seededZero rfl).1 rfl⟩

end WasiRand
